import Mathlib

/-!
Shallow embedding of the proxy-browser Cloudflare Pages Function
(`onRequest` with its helpers `corsHeaders`, `applyCors`, `htmlRewriter`
and `rewriteStyleUrls`), together with proofs about the claims of the
specification.  JS strings are modeled as Lean `String`s (lists of Unicode
scalar values); the platform primitives `fetch`, `new URL` and
`new Request` are modeled as explicit oracles handed to `onRequest`, and
the two `fetch` calls are recorded in an event trace so that statements
about "no upstream request is issued" are expressible.
-/

namespace ProxyBrowser

/-! ### Characters and strings -/

/-- The double-quote character. -/
def quoteD : Char := Char.ofNat 34

/-- The single-quote character. -/
def quoteS : Char := Char.ofNat 39

/-- JS `String.prototype.toLowerCase` (ASCII range, which is all the code
compares after lowercasing). -/
def lowerStr (s : String) : String := ⟨s.data.map Char.toLower⟩

/-- JS `s.startsWith(p)`. -/
def strStartsWith (s p : String) : Bool := p.data.isPrefixOf s.data

/-- Does `p` occur as a contiguous sublist of `s`? -/
def listInfix (p : List Char) : List Char → Bool
  | [] => p.isEmpty
  | c :: t => p.isPrefixOf (c :: t) || listInfix p t

/-- JS `s.includes(p)`. -/
def strIncludes (s p : String) : Bool := listInfix p.data s.data

/-- JS `String.prototype.trim`. -/
def trimStr (s : String) : String :=
  ⟨((s.data.dropWhile Char.isWhitespace).reverse.dropWhile Char.isWhitespace).reverse⟩

/-! ### The JS `Headers` object

A `Headers` object is modeled as an association list of name/value pairs
with case-insensitive names.  `hset` models `Headers.set` (replace the
first entry of that name, dropping any further duplicates, else append),
`hget` models `Headers.get` (first entry of that name), `hdelete` models
`Headers.delete`. -/

/-- Case-insensitive header-name equality. -/
def nameEq (a b : String) : Bool := lowerStr a == lowerStr b

/-- `Headers.get`. -/
def hget (hs : List (String × String)) (k : String) : Option String :=
  (hs.find? (fun p => nameEq p.1 k)).map (·.2)

/-- `Headers.has`. -/
def hhas (hs : List (String × String)) (k : String) : Bool := (hget hs k).isSome

/-- `Headers.set`. -/
def hset (hs : List (String × String)) (k v : String) : List (String × String) :=
  match hs with
  | [] => [(k, v)]
  | (k0, v0) :: t =>
    if nameEq k0 k then (k0, v) :: t.filter (fun p => !(nameEq p.1 k))
    else (k0, v0) :: hset t k v

/-- `Headers.delete`. -/
def hdelete (hs : List (String × String)) (k : String) : List (String × String) :=
  hs.filter (fun p => !(nameEq p.1 k))

/-! ### `encodeURIComponent` and `decodeURIComponent`

Modeled after the ECMA-262 `Encode`/`Decode` abstract operations.
`decodeURIComponent` returns `none` where JS throws a `URIError`
(a stray `%`, a bad hex digit, or escapes that are not a valid UTF-8
encoding of a Unicode scalar value). -/

/-- Code points that `encodeURIComponent` leaves unescaped: ASCII
alphanumerics and `- _ . ! ~ * ( )` together with the single quote. -/
def isUriUnreserved (v : Nat) : Bool :=
  (65 ≤ v && v ≤ 90) || (97 ≤ v && v ≤ 122) || (48 ≤ v && v ≤ 57) ||
  v == 45 || v == 95 || v == 46 || v == 33 || v == 126 || v == 42 ||
  v == 39 || v == 40 || v == 41

/-- UTF-8 bytes of a Unicode scalar value. -/
def utf8Bytes (v : Nat) : List Nat :=
  if v < 0x80 then [v]
  else if v < 0x800 then [0xC0 + v / 64, 0x80 + v % 64]
  else if v < 0x10000 then [0xE0 + v / 4096, 0x80 + v / 64 % 64, 0x80 + v % 64]
  else [0xF0 + v / 262144, 0x80 + v / 4096 % 64, 0x80 + v / 64 % 64, 0x80 + v % 64]

/-- Upper-case hexadecimal digit, as emitted by `encodeURIComponent`. -/
def hexDigit (n : Nat) : Char := if n < 10 then Char.ofNat (48 + n) else Char.ofNat (55 + n)

/-- A `%XY` escape for one byte. -/
def pctByte (b : Nat) : List Char := ['%', hexDigit (b / 16), hexDigit (b % 16)]

/-- Encoding of a single character: kept verbatim if unreserved, otherwise
each of its UTF-8 bytes is percent-escaped. -/
def encodeChar (c : Char) : List Char :=
  if isUriUnreserved c.toNat then [c]
  else (utf8Bytes c.toNat).foldr (fun b acc => pctByte b ++ acc) []

/-- `encodeURIComponent` over a character list. -/
def encodeURIComponentL : List Char → List Char
  | [] => []
  | c :: cs => encodeChar c ++ encodeURIComponentL cs

/-- JS `encodeURIComponent`. -/
def encodeURIComponent (s : String) : String := ⟨encodeURIComponentL s.data⟩

/-- Value of one hexadecimal digit character. -/
def hexVal (c : Char) : Option Nat :=
  if 48 ≤ c.toNat && c.toNat ≤ 57 then some (c.toNat - 48)
  else if 65 ≤ c.toNat && c.toNat ≤ 70 then some (c.toNat - 55)
  else if 97 ≤ c.toNat && c.toNat ≤ 102 then some (c.toNat - 87)
  else none

/-- Read one `%XY` escape from the front, returning the byte and the rest. -/
def readPct : List Char → Option (Nat × List Char)
  | c :: h :: l :: rest =>
    if c == '%' then
      match hexVal h, hexVal l with
      | some a, some b => some (16 * a + b, rest)
      | _, _ => none
    else none
  | _ => none

/-- Decode one escape sequence: 1 to 4 `%XY` escapes that must form a valid
UTF-8 encoding of a Unicode scalar value (no overlong forms, no
surrogates, no code points above `0x10FFFF`). -/
def decodeSeq (cs : List Char) : Option (Char × List Char) :=
  match readPct cs with
  | none => none
  | some (b1, r1) =>
    if b1 < 0x80 then some (Char.ofNat b1, r1)
    else if b1 < 0xC0 then none
    else if b1 < 0xE0 then
      match readPct r1 with
      | none => none
      | some (b2, r2) =>
        let v := (b1 - 0xC0) * 64 + (b2 - 0x80)
        if (0x80 ≤ b2 ∧ b2 < 0xC0) ∧ 0x80 ≤ v then some (Char.ofNat v, r2) else none
    else if b1 < 0xF0 then
      match readPct r1 with
      | none => none
      | some (b2, r2) =>
        match readPct r2 with
        | none => none
        | some (b3, r3) =>
          let v := (b1 - 0xE0) * 4096 + (b2 - 0x80) * 64 + (b3 - 0x80)
          if (0x80 ≤ b2 ∧ b2 < 0xC0) ∧ (0x80 ≤ b3 ∧ b3 < 0xC0) ∧ 0x800 ≤ v ∧
              ¬(0xD800 ≤ v ∧ v ≤ 0xDFFF) then
            some (Char.ofNat v, r3)
          else none
    else if b1 < 0xF8 then
      match readPct r1 with
      | none => none
      | some (b2, r2) =>
        match readPct r2 with
        | none => none
        | some (b3, r3) =>
          match readPct r3 with
          | none => none
          | some (b4, r4) =>
            let v := (b1 - 0xF0) * 262144 + (b2 - 0x80) * 4096 + (b3 - 0x80) * 64 + (b4 - 0x80)
            if (0x80 ≤ b2 ∧ b2 < 0xC0) ∧ (0x80 ≤ b3 ∧ b3 < 0xC0) ∧ (0x80 ≤ b4 ∧ b4 < 0xC0) ∧
                0x10000 ≤ v ∧ v ≤ 0x10FFFF then
              some (Char.ofNat v, r4)
            else none
    else none

/-- Fueled decoding loop; every step consumes at least one character and
spends exactly one unit of fuel, so fuel equal to the input length never
runs out. -/
def decodeAux : Nat → List Char → Option (List Char)
  | _, [] => some []
  | 0, _ :: _ => none
  | fuel + 1, c :: rest =>
    if c == '%' then
      match decodeSeq (c :: rest) with
      | none => none
      | some (ch, r2) => (decodeAux fuel r2).map (ch :: ·)
    else (decodeAux fuel rest).map (c :: ·)

/-- `decodeURIComponent` over a character list. -/
def decodeURIComponentL (cs : List Char) : Option (List Char) := decodeAux cs.length cs

/-- JS `decodeURIComponent`; `none` models a thrown `URIError`. -/
def decodeURIComponent (s : String) : Option String :=
  (decodeURIComponentL s.data).map (⟨·⟩)

/-! ### The streaming HTML rewriter (`htmlRewriter`)

`HTMLRewriter` is an external streaming capability: it invokes the
registered handlers once per element matching their selector, with no
buffering of the document.  We model one element event and the three
handlers the code registers.  `resolve v base` models `new URL(v, base).href`
(WHATWG URL resolution); `none` models a thrown `TypeError`, which the
handler catches and ignores. -/

/-- One element event: its (lower-cased) tag name and attribute list. -/
structure Element where
  tagName : String
  attrs : List (String × String)
deriving DecidableEq

/-- `element.getAttribute(name)`: attribute names come lower-cased from the
parser, so the lookup is an exact match on the first entry. -/
def getAttribute (e : Element) (name : String) : Option String :=
  (e.attrs.find? (fun p => p.1 == name)).map (·.2)

/-- Replace the value of attribute `n` (or append it). -/
def setAttrList : List (String × String) → String → String → List (String × String)
  | [], n, v => [(n, v)]
  | (k, v0) :: t, n, v => if k == n then (k, v) :: t else (k, v0) :: setAttrList t n v

/-- `element.setAttribute(n, v)`. -/
def setAttribute (e : Element) (n v : String) : Element :=
  ⟨e.tagName, setAttrList e.attrs n v⟩

/-- The CSS selector of the first handler:
`a[href], link[href], script[src], img[src], source[src], embed[src], iframe[src], form[action]`. -/
def linkSelector (e : Element) : Bool :=
  ((e.tagName == "a" || e.tagName == "link") && (getAttribute e "href").isSome) ||
  ((e.tagName == "script" || e.tagName == "img" || e.tagName == "source" ||
      e.tagName == "embed" || e.tagName == "iframe") && (getAttribute e "src").isSome) ||
  (e.tagName == "form" && (getAttribute e "action").isSome)

/-- The attribute the first handler chooses to rewrite: `action` for `form`
elements, otherwise `href` whenever an `href` attribute is present,
otherwise `src` whenever a `src` attribute is present. -/
def designatedAttr (e : Element) : Option String :=
  if e.tagName == "form" then some "action"
  else if (getAttribute e "href").isSome then some "href"
  else if (getAttribute e "src").isSome then some "src"
  else none

/-- The first handler (`element(element)` at part_000 lines 123-137): pick
the designated attribute; return if it is missing or empty; try to resolve
its value against `baseUrl`; on success replace it with
`proxyBase + encodeURIComponent(absolute href)`, on failure change nothing. -/
def rewriteLinkElement (resolve : String → String → Option String)
    (proxyBase baseUrl : String) (e : Element) : Element :=
  match designatedAttr e with
  | none => e
  | some attr =>
    match getAttribute e attr with
    | none => e
    | some v =>
      if v == "" then e
      else
        match resolve v baseUrl with
        | none => e
        | some href => setAttribute e attr (proxyBase ++ encodeURIComponent href)

/-! ### `rewriteStyleUrls`

The JS implementation is
`style.replace(/url\([^)]*\)/g, cb)` where `cb` re-matches the token with
`/url\(["<single-quote>]?([^"<single-quote>)]+)["<single-quote>]?\)/`.
We implement both regexes directly as scanners over the character list,
with the same greedy/backtracking behaviour on these fixed patterns. -/

/-- Is `c` a single or double quote? -/
def isQuoteChar (c : Char) : Bool := c == quoteD || c == quoteS

/-- Do the next four characters read `url(`? -/
def startsWithUrl : List Char → Bool
  | u :: r :: l :: p :: _ => u == 'u' && r == 'r' && l == 'l' && p == '('
  | _ => false

/-- The characters `url(`. -/
def urlOpen : List Char := ['u', 'r', 'l', '(']

/-- Split at the first close paren: `some (before, after)` iff one exists. -/
def splitCloseParen : List Char → Option (List Char × List Char)
  | [] => none
  | c :: t =>
    if c == ')' then some ([], t)
    else
      match splitCloseParen t with
      | some (a, b) => some (c :: a, b)
      | none => none

/-- First match of the global token regex `url\([^)]*\)`: returns
`(text before the match, token interior, text after the match)`.  The
match starts at the first occurrence of `url(` and the interior runs to
the first close paren; if the first `url(` is never closed no later one
can be either (there is no close paren after it), so the scan fails. -/
def findToken : List Char → Option (List Char × List Char × List Char)
  | [] => none
  | c :: t =>
    if startsWithUrl (c :: t) then
      match splitCloseParen ((c :: t).drop 4) with
      | some (inner, post) => some ([], inner, post)
      | none => none
    else
      match findToken t with
      | some (pre, inner, post) => some (c :: pre, inner, post)
      | none => none

/-- Body of the inner regex after the optional opening quote:
`([^"<quote>)]+)["<quote>]?\)` with a greedy, maximal capture run. -/
def tryBody (cs : List Char) : Option (List Char) :=
  let run := cs.takeWhile (fun c => !(isQuoteChar c) && c != ')')
  if run.isEmpty then none
  else
    match cs.drop run.length with
    | a :: b :: _ =>
      if isQuoteChar a && b == ')' then some run
      else if a == ')' then some run
      else none
    | [a] => if a == ')' then some run else none
    | [] => none

/-- After the literal `url(`: the greedy optional quote is tried first and
backtracked on failure, like the regex `["<quote>]?`. -/
def tryAt (cs : List Char) : Option (List Char) :=
  match cs with
  | [] => none
  | q :: rest =>
    if isQuoteChar q then
      match tryBody rest with
      | some u => some u
      | none => tryBody (q :: rest)
    else tryBody (q :: rest)

/-- Try the inner regex anchored at the current position. -/
def innerMatchAt (cs : List Char) : Option (List Char) :=
  if startsWithUrl cs then tryAt (cs.drop 4) else none

/-- Search for the inner regex at every position, left to right. -/
def innerMatch : List Char → Option (List Char)
  | [] => none
  | c :: t =>
    match innerMatchAt (c :: t) with
    | some u => some u
    | none => innerMatch t

/-- The replacement callback (part_000 lines 158-167): re-match the token;
if the captured URL resolves, emit `url(proxyBase + encodeURIComponent(href))`,
otherwise return the token verbatim. -/
def replaceTok (resolve : String → String → Option String)
    (proxyBase baseUrl : String) (tok : List Char) : List Char :=
  match innerMatch tok with
  | none => tok
  | some u =>
    match resolve ⟨u⟩ baseUrl with
    | none => tok
    | some href => urlOpen ++ proxyBase.data ++ (encodeURIComponent href).data ++ [')']

/-- Fueled global-replace loop: each round consumes a whole token (at least
five characters) and one unit of fuel, so fuel equal to the input length
never runs out. -/
def rewriteStyleAux (resolve : String → String → Option String)
    (proxyBase baseUrl : String) : Nat → List Char → List Char
  | _, [] => []
  | 0, cs => cs
  | fuel + 1, cs =>
    match findToken cs with
    | none => cs
    | some (pre, inner, post) =>
      pre ++ replaceTok resolve proxyBase baseUrl (urlOpen ++ inner ++ [')']) ++
        rewriteStyleAux resolve proxyBase baseUrl fuel post

/-- `rewriteStyleUrls` over a character list. -/
def rewriteStyleUrlsL (resolve : String → String → Option String)
    (proxyBase baseUrl : String) (cs : List Char) : List Char :=
  rewriteStyleAux resolve proxyBase baseUrl cs.length cs

/-- `rewriteStyleUrls(style, proxyBase, baseUrl)`. -/
def rewriteStyleUrls (resolve : String → String → Option String)
    (style proxyBase baseUrl : String) : String :=
  ⟨rewriteStyleUrlsL resolve proxyBase baseUrl style.data⟩

/-- The second handler (part_000 lines 139-144), registered on `*[style]`:
replace the style attribute by its rewritten form. -/
def rewriteStyleElement (resolve : String → String → Option String)
    (proxyBase baseUrl : String) (e : Element) : Element :=
  let style := (getAttribute e "style").getD ""
  setAttribute e "style" (rewriteStyleUrls resolve style proxyBase baseUrl)

/-! ### The Pages Function `onRequest`

The handler is modeled as a pure function of the inbound request data
(`ProxyCtx`) and of the platform oracles (`JsEnv`).  Its result is the
produced `Response` — or the `URIError` escaping the handler, since the
`decodeURIComponent` call at line 14 sits outside the `try` block —
paired with the trace of URLs passed to `fetch`. -/

/-- Upstream response as seen by the handler: status, status text, headers,
final URL after redirects; the body is kept symbolic (see `BodyVal`). -/
structure UpstreamResp where
  status : Nat
  statusText : String
  headers : List (String × String)
  url : String
deriving DecidableEq

/-- Body of a produced `Response`.  Upstream bodies are byte streams we
treat symbolically: `upstream` is `fetched.body` passed through unchanged,
`rewritten pb base` is the body of `htmlRewriter(pb, base).transform(fetched)`. -/
inductive BodyVal where
  | empty
  | text (s : String)
  | upstream
  | rewritten (proxyBase baseUrl : String)
deriving DecidableEq

/-- A produced `Response`.  Only headers the code sets are modeled. -/
structure Resp where
  status : Nat
  statusText : String
  headers : List (String × String)
  body : BodyVal
deriving DecidableEq

/-- An exception escaping `onRequest` uncaught. -/
inductive JsErr where
  | uriError
deriving DecidableEq

/-- Inbound request data: method, full request URL, headers (duplicates
allowed), and the `params.target` path segment. -/
structure ProxyCtx where
  method : String
  requestUrl : String
  reqHeaders : List (String × String)
  targetParam : Option String

/-- Platform oracles: `urlOrigin u` is `new URL(u).origin`; `versionFetch`
is the outcome of `fetch(origin + "/VERSION")` (`.error` = rejected,
`.ok (res.ok, body text)`); `parseAbs t` is `new Request(t, init).url`
(`.error msg` = the constructor threw); `targetFetch` is the outcome of
`fetch(proxyReq)`. -/
structure JsEnv where
  urlOrigin : String → String
  versionFetch : Except Unit (Bool × String)
  parseAbs : String → Except String String
  targetFetch : Except String UpstreamResp

/-- `applyCors(headers, appVersion)` (part_000 lines 112-117). -/
def applyCors (headers : List (String × String)) (appVersion : String) :
    List (String × String) :=
  hset (hset (hset (hset headers
    "Access-Control-Allow-Origin" "*")
    "Access-Control-Allow-Methods" "GET, POST, PUT, DELETE, OPTIONS")
    "Access-Control-Allow-Headers" "*")
    "X-App-Version" appVersion

/-- `corsHeaders(appVersion)` (part_000 lines 106-110). -/
def corsHeaders (appVersion : String) : List (String × String) := applyCors [] appVersion

/-- The forbidden inbound header names (part_000 line 33). -/
def forbiddenHeader (key : String) : Bool :=
  key == "host" || key == "cookie" || key == "content-length"

/-- The copy loop of part_000 lines 31-35: each non-forbidden inbound
entry is written with `Headers.set`, so a later duplicate overwrites an
earlier one. -/
def copyHeaders : List (String × String) → List (String × String) → List (String × String)
  | [], acc => acc
  | (k, v) :: t, acc =>
    if forbiddenHeader (lowerStr k) then copyHeaders t acc
    else copyHeaders t (hset acc k v)

/-- The default `User-Agent` value (part_000 line 37). -/
def defaultUserAgent : String := "Mozilla/5.0 (Windows NT 10.0; Win64; x64) AppleWebKit/537.36"

/-- Outgoing-header construction (part_000 lines 30-40): copy loop, then
`User-Agent` and `Accept` defaults when absent, then `Referer` is set to
the decoded target URL. -/
def buildOutgoingHeaders (reqHeaders : List (String × String)) (targetUrl : String) :
    List (String × String) :=
  let h1 := copyHeaders reqHeaders []
  let h2 := if hhas h1 "user-agent" then h1 else hset h1 "User-Agent" defaultUserAgent
  let h3 := if hhas h2 "accept" then h2 else hset h2 "Accept" "*/*"
  hset h3 "Referer" targetUrl

/-- `APP_VERSION` after the guarded best-effort `/VERSION` lookup
(part_000 lines 7, 24-27): default `"0.0.0"`, overwritten by the trimmed
body when the fetch succeeded with `res.ok` and a non-empty trimmed body. -/
def computeVersion (vres : Except Unit (Bool × String)) : String :=
  match vres with
  | .error _ => "0.0.0"
  | .ok (okFlag, txt) =>
    if okFlag then (if trimStr txt == "" then "0.0.0" else trimStr txt) else "0.0.0"

/-- The three diagnostic headers plus `X-App-Version` (part_000 lines 67-70
and 89-92). -/
def diagHeaders (hs : List (String × String)) (target reqUrl fetchedUrl appVersion : String) :
    List (String × String) :=
  hset (hset (hset (hset hs
    "X-Proxy-Target" target)
    "X-Proxy-Request-URL" reqUrl)
    "X-Fetched-URL" fetchedUrl)
    "X-App-Version" appVersion

/-- The content-type dispatch (part_000 line 62), applied to the
lower-cased `Content-Type` value. -/
def isHtmlContentType (ct : String) : Bool :=
  strStartsWith ct "text/html" || strIncludes ct "xml"

/-- The Pages Function `onRequest` (part_000 lines 4-104).  Returns the
produced response (or the escaped exception) and the list of URLs passed
to `fetch`. -/
def onRequest (ctx : ProxyCtx) (env : JsEnv) : Except JsErr Resp × List String :=
  match ctx.targetParam with
  | none => (.ok ⟨400, "", [], .text "Missing target URL"⟩, [])
  | some targetParam =>
    if targetParam == "" then (.ok ⟨400, "", [], .text "Missing target URL"⟩, [])
    else
      match decodeURIComponent targetParam with
      | none => (.error .uriError, [])
      | some targetUrl =>
        let origin := env.urlOrigin ctx.requestUrl
        if strStartsWith targetUrl origin then
          (.ok ⟨400, "", [], .text "Refusing to proxy this origin (loop protection)."⟩, [])
        else
          let versionTrace := [origin ++ "/VERSION"]
          let appVersion := computeVersion env.versionFetch
          let _outgoingHeaders := buildOutgoingHeaders ctx.reqHeaders targetUrl
          if ctx.method == "OPTIONS" then
            (.ok ⟨204, "", corsHeaders appVersion, .empty⟩, versionTrace)
          else
            match env.parseAbs targetUrl with
            | .error msg =>
              (.ok ⟨502, "", [],
                .text ("Proxy failed: " ++ msg ++ "\n\nTarget: " ++ targetUrl)⟩, versionTrace)
            | .ok proxyReqUrl =>
              match env.targetFetch with
              | .error msg =>
                (.ok ⟨502, "", [],
                  .text ("Proxy failed: " ++ msg ++ "\n\nTarget: " ++ targetUrl)⟩,
                  versionTrace ++ [proxyReqUrl])
              | .ok fetched =>
                let fetchedUrl := fetched.url
                let contentType := lowerStr ((hget fetched.headers "Content-Type").getD "")
                if isHtmlContentType contentType then
                  let proxyBase := origin ++ "/p/"
                  let headers := applyCors (hdelete (hdelete (hdelete
                    (diagHeaders fetched.headers targetUrl proxyReqUrl fetchedUrl appVersion)
                    "x-frame-options") "content-security-policy")
                    "content-security-policy-report-only") appVersion
                  (.ok ⟨fetched.status, fetched.statusText, headers,
                    .rewritten proxyBase targetUrl⟩, versionTrace ++ [proxyReqUrl])
                else
                  let headers := applyCors (hdelete
                    (diagHeaders fetched.headers targetUrl proxyReqUrl fetchedUrl appVersion)
                    "x-frame-options") appVersion
                  (.ok ⟨fetched.status, fetched.statusText, headers, .upstream⟩,
                    versionTrace ++ [proxyReqUrl])

/-! ### Derived notions used by the statements -/

/-- Value of the last inbound entry whose name matches `k`
case-insensitively. -/
def lastCi : List (String × String) → String → Option String
  | [], _ => none
  | (k0, v0) :: t, k =>
    match lastCi t k with
    | some v => some v
    | none => if nameEq k0 k then some v0 else none

/-- Names of a `Headers` list are pairwise distinct (case-insensitively). -/
def ciDistinct (hs : List (String × String)) : Prop :=
  hs.Pairwise (fun p q => nameEq p.1 q.1 = false)

/-- Does `url(` occur anywhere in the list? -/
def hasUrlParen : List Char → Bool
  | [] => false
  | c :: t => startsWithUrl (c :: t) || hasUrlParen t

/-! ### Header-algebra lemmas -/

theorem nameEq_of_eq {a b : String} (h : lowerStr a = lowerStr b) : nameEq a b = true := by
  simp [nameEq, h]

theorem nameEq_of_ne {a b : String} (h : lowerStr a ≠ lowerStr b) : nameEq a b = false := by
  simp [nameEq, h]

theorem eq_of_nameEq {a b : String} (h : nameEq a b = true) : lowerStr a = lowerStr b := by
  simpa [nameEq] using h

theorem nameEq_symm (a b : String) : nameEq a b = nameEq b a := by
  by_cases h : lowerStr a = lowerStr b
  · rw [nameEq_of_eq h, nameEq_of_eq h.symm]
  · rw [nameEq_of_ne h, nameEq_of_ne (fun hh => h hh.symm)]

theorem ne_of_nameEq_false {a b : String} (h : nameEq a b = false) : lowerStr a ≠ lowerStr b := by
  simpa [nameEq] using h

theorem hget_cons (k0 v0 : String) (t : List (String × String)) (k : String) :
    hget ((k0, v0) :: t) k = if nameEq k0 k then some v0 else hget t k := by
  by_cases h : nameEq k0 k = true <;> simp [hget, List.find?, h]

theorem hget_filter_ne (t : List (String × String)) {k k' : String}
    (h : lowerStr k' ≠ lowerStr k) :
    hget (t.filter (fun p => !(nameEq p.1 k))) k' = hget t k' := by
  induction t with
  | nil => rfl
  | cons p t ih =>
    obtain ⟨k0, v0⟩ := p
    by_cases h0 : lowerStr k0 = lowerStr k
    · have e1 : nameEq k0 k = true := nameEq_of_eq h0
      have e2 : nameEq k0 k' = false := nameEq_of_ne (fun hh => h (hh.symm.trans h0))
      simp [List.filter, e1, hget_cons, e2, ih]
    · have e1 : nameEq k0 k = false := nameEq_of_ne h0
      simp [List.filter, e1, hget_cons, ih]

theorem hget_hset (hs : List (String × String)) (k v k' : String) :
    hget (hset hs k v) k' = if nameEq k' k then some v else hget hs k' := by
  induction hs with
  | nil =>
    by_cases h : lowerStr k' = lowerStr k
    · simp [hset, hget_cons, nameEq_of_eq h.symm, nameEq_of_eq h]
    · simp [hset, hget_cons, nameEq_of_ne (fun hh => h hh.symm), nameEq_of_ne h]
  | cons p t ih =>
    obtain ⟨k0, v0⟩ := p
    by_cases h0 : lowerStr k0 = lowerStr k
    · have e0 : nameEq k0 k = true := nameEq_of_eq h0
      by_cases h' : lowerStr k' = lowerStr k
      · have e1 : nameEq k0 k' = true := nameEq_of_eq (h0.trans h'.symm)
        simp [hset, e0, hget_cons, e1, nameEq_of_eq h']
      · have e1 : nameEq k0 k' = false := nameEq_of_ne (fun hh => h' (hh.symm.trans h0))
        rw [hset]
        simp only [e0, if_true, hget_cons, e1, Bool.false_eq_true, if_false,
          nameEq_of_ne h']
        exact hget_filter_ne t h'
    · have e0 : nameEq k0 k = false := nameEq_of_ne h0
      by_cases hk0 : lowerStr k0 = lowerStr k'
      · have h' : lowerStr k' ≠ lowerStr k := fun hh => h0 (hk0.trans hh)
        simp [hset, e0, hget_cons, nameEq_of_eq hk0, nameEq_of_ne h']
      · simp [hset, e0, hget_cons, nameEq_of_ne hk0, ih]

theorem hget_hdelete (hs : List (String × String)) (k k' : String) :
    hget (hdelete hs k) k' = if nameEq k' k then none else hget hs k' := by
  by_cases h' : lowerStr k' = lowerStr k
  · simp only [nameEq_of_eq h', if_true]
    induction hs with
    | nil => rfl
    | cons p t ih =>
      obtain ⟨k0, v0⟩ := p
      by_cases h0 : lowerStr k0 = lowerStr k
      · simpa [hdelete, List.filter, nameEq_of_eq h0] using ih
      · have e1 : nameEq k0 k' = false := nameEq_of_ne (fun hh => h0 (hh.trans h'))
        simpa [hdelete, List.filter, nameEq_of_ne h0, hget_cons, e1] using ih
  · simp only [nameEq_of_ne h', Bool.false_eq_true, if_false]
    exact hget_filter_ne hs h'

theorem hget_congr (hs : List (String × String)) {k k' : String}
    (h : lowerStr k = lowerStr k') : hget hs k = hget hs k' := by
  induction hs with
  | nil => rfl
  | cons p t ih =>
    obtain ⟨k0, v0⟩ := p
    rw [hget_cons, hget_cons, ih]
    congr 1
    by_cases h0 : lowerStr k0 = lowerStr k
    · rw [nameEq_of_eq h0, nameEq_of_eq (h0.trans h)]
    · rw [nameEq_of_ne h0, nameEq_of_ne (fun hh => h0 (hh.trans h.symm))]

/-! ### Outgoing-header lemmas -/

theorem lastCi_eq_none {inb : List (String × String)} {k : String} :
    lastCi inb k = none ↔ ∀ p ∈ inb, nameEq p.1 k = false := by
  induction inb with
  | nil => simp [lastCi]
  | cons p t ih =>
    obtain ⟨k0, v0⟩ := p
    rw [lastCi]
    cases ht : lastCi t k with
    | some v =>
      constructor
      · intro h; exact absurd h (by simp)
      · intro h
        have hn := ih.mpr (fun q hq => h q (List.mem_cons_of_mem _ hq))
        rw [hn] at ht
        exact absurd ht (by simp)
    | none =>
      constructor
      · intro h q hq
        rcases List.mem_cons.mp hq with hq | hq
        · subst hq
          by_cases h0 : nameEq k0 k = true
          · rw [if_pos h0] at h
            exact absurd h (by simp)
          · simpa using h0
        · exact ih.mp ht q hq
      · intro h
        simp [h (k0, v0) (List.mem_cons_self _ _)]

/-- `forbiddenHeader` sees only the lower-cased key, so case-insensitively
equal keys agree on it. -/
theorem forbidden_congr {a b : String} (h : lowerStr a = lowerStr b) :
    forbiddenHeader (lowerStr a) = forbiddenHeader (lowerStr b) := by rw [h]

/-- Characterization of the copy loop: a forbidden name is never written;
otherwise the last matching inbound entry wins, falling back to the
accumulator. -/
theorem copyHeaders_hget (inb : List (String × String)) (acc : List (String × String))
    (k : String) :
    hget (copyHeaders inb acc) k =
      if forbiddenHeader (lowerStr k) then hget acc k
      else
        match lastCi inb k with
        | some v => some v
        | none => hget acc k := by
  induction inb generalizing acc with
  | nil =>
    rw [copyHeaders, lastCi]
    cases forbiddenHeader (lowerStr k) <;> simp
  | cons p t ih =>
    obtain ⟨k0, v0⟩ := p
    by_cases h0 : forbiddenHeader (lowerStr k0) = true
    · rw [copyHeaders, if_pos h0, ih, lastCi]
      by_cases hf : forbiddenHeader (lowerStr k) = true
      · simp [hf]
      · have e0 : nameEq k0 k = false := by
          apply nameEq_of_ne
          intro hh
          rw [forbidden_congr hh] at h0
          exact hf h0
        simp only [hf, Bool.false_eq_true, if_false, e0]
        cases lastCi t k <;> simp
    · simp only [Bool.not_eq_true] at h0
      rw [copyHeaders, h0]
      simp only [Bool.false_eq_true, if_false]
      rw [ih, lastCi]
      by_cases hf : forbiddenHeader (lowerStr k) = true
      · have e0 : nameEq k k0 = false := by
          apply nameEq_of_ne
          intro hh
          rw [forbidden_congr hh, h0] at hf
          exact Bool.false_ne_true hf
        simp [hf, hget_hset, e0]
      · simp only [Bool.not_eq_true] at hf
        simp only [hf, Bool.false_eq_true, if_false]
        cases ht : lastCi t k with
        | some v => simp
        | none =>
          simp only [hget_hset]
          rw [nameEq_symm k0 k]
          cases nameEq k k0 <;> simp

theorem mem_hset_name {hs : List (String × String)} {k v : String} {q : String × String}
    (h : q ∈ hset hs k v) : (∃ v0, (q.1, v0) ∈ hs) ∨ q.1 = k := by
  induction hs with
  | nil =>
    rw [hset] at h
    simp at h
    subst h
    exact Or.inr rfl
  | cons p t ih =>
    obtain ⟨k0, v0⟩ := p
    rw [hset] at h
    by_cases h0 : nameEq k0 k = true
    · rw [if_pos h0] at h
      rcases List.mem_cons.mp h with hq | hq
      · subst hq
        exact Or.inl ⟨v0, List.mem_cons_self _ _⟩
      · have := List.mem_of_mem_filter hq
        exact Or.inl ⟨q.2, List.mem_cons_of_mem _ (by simpa using this)⟩
    · rw [if_neg h0] at h
      rcases List.mem_cons.mp h with hq | hq
      · subst hq
        exact Or.inl ⟨v0, List.mem_cons_self _ _⟩
      · rcases ih hq with ⟨v1, hv⟩ | hk
        · exact Or.inl ⟨v1, List.mem_cons_of_mem _ hv⟩
        · exact Or.inr hk

theorem ciDistinct_hset {hs : List (String × String)} (k v : String)
    (h : ciDistinct hs) : ciDistinct (hset hs k v) := by
  induction hs with
  | nil =>
    rw [hset]
    exact List.pairwise_singleton _ _
  | cons p t ih =>
    obtain ⟨k0, v0⟩ := p
    rw [ciDistinct, List.pairwise_cons] at h
    obtain ⟨hhead, htail⟩ := h
    rw [hset]
    by_cases h0 : nameEq k0 k = true
    · rw [if_pos h0]
      rw [ciDistinct, List.pairwise_cons]
      constructor
      · intro q hq
        exact hhead q (List.mem_of_mem_filter hq)
      · exact List.Pairwise.sublist (List.filter_sublist t) htail
    · rw [if_neg h0]
      rw [ciDistinct, List.pairwise_cons]
      constructor
      · intro q hq
        rcases mem_hset_name hq with ⟨v1, hv⟩ | hk
        · have := hhead (q.1, v1) hv
          exact this
        · rw [hk]
          simpa using h0
      · exact ih htail

theorem ciDistinct_copyHeaders (inb : List (String × String))
    {acc : List (String × String)} (h : ciDistinct acc) :
    ciDistinct (copyHeaders inb acc) := by
  induction inb generalizing acc with
  | nil => exact h
  | cons p t ih =>
    obtain ⟨k0, v0⟩ := p
    rw [copyHeaders]
    by_cases hf : forbiddenHeader (lowerStr k0) = true
    · rw [if_pos hf]; exact ih h
    · rw [if_neg hf]; exact ih (ciDistinct_hset k0 v0 h)

theorem ciDistinct_buildOutgoing (inb : List (String × String)) (t : String) :
    ciDistinct (buildOutgoingHeaders inb t) := by
  have h1 : ciDistinct (copyHeaders inb []) :=
    ciDistinct_copyHeaders inb List.Pairwise.nil
  rw [buildOutgoingHeaders]
  apply ciDistinct_hset
  by_cases hu : hhas (copyHeaders inb []) "user-agent" = true
  · simp only [hu, if_true]
    by_cases ha : hhas (copyHeaders inb []) "accept" = true
    · simp [ha, h1]
    · simp only [Bool.not_eq_true] at ha
      simp [ha, ciDistinct_hset _ _ h1]
  · simp only [Bool.not_eq_true] at hu
    simp only [hu, Bool.false_eq_true, if_false]
    have h2 := ciDistinct_hset "User-Agent" defaultUserAgent h1
    by_cases ha : hhas (hset (copyHeaders inb []) "User-Agent" defaultUserAgent) "accept" = true
    · simp [ha, h2]
    · simp only [Bool.not_eq_true] at ha
      simp [ha, ciDistinct_hset _ _ h2]

theorem copyHeaders_nil_hget (inb : List (String × String)) (k : String) :
    hget (copyHeaders inb []) k =
      if forbiddenHeader (lowerStr k) then none else lastCi inb k := by
  rw [copyHeaders_hget]
  cases forbiddenHeader (lowerStr k) <;> cases lastCi inb k <;> simp [hget]

theorem hhas_hset_ne {hs : List (String × String)} {k k' : String} (v : String)
    (h : nameEq k' k = false) : hhas (hset hs k v) k' = hhas hs k' := by
  simp [hhas, hget_hset, h]

/-- Full characterization of `buildOutgoingHeaders` lookups. -/
theorem buildOutgoing_hget (inb : List (String × String)) (t k : String) :
    hget (buildOutgoingHeaders inb t) k =
      if nameEq k "Referer" then some t
      else if nameEq k "User-Agent" then
        (if hhas (copyHeaders inb []) "user-agent" then hget (copyHeaders inb []) k
         else some defaultUserAgent)
      else if nameEq k "Accept" then
        (if hhas (copyHeaders inb []) "accept" then hget (copyHeaders inb []) k
         else some "*/*")
      else hget (copyHeaders inb []) k := by
  simp only [buildOutgoingHeaders]
  by_cases hu : hhas (copyHeaders inb []) "user-agent" = true
  · simp only [hu, if_true]
    by_cases ha : hhas (copyHeaders inb []) "accept" = true
    · simp only [ha, if_true, hget_hset]
      by_cases hr : nameEq k "Referer" = true <;>
        by_cases hU : nameEq k "User-Agent" = true <;>
          by_cases hA : nameEq k "Accept" = true <;>
            first
              | exact absurd ((eq_of_nameEq hU).symm.trans (eq_of_nameEq hA)) (by decide)
              | simp [hr, hU, hA, hu, ha]
    · simp only [Bool.not_eq_true] at ha
      simp only [ha, Bool.false_eq_true, if_false, hget_hset]
      by_cases hr : nameEq k "Referer" = true <;>
        by_cases hU : nameEq k "User-Agent" = true <;>
          by_cases hA : nameEq k "Accept" = true <;>
            first
              | exact absurd ((eq_of_nameEq hU).symm.trans (eq_of_nameEq hA)) (by decide)
              | simp [hr, hU, hA, hu, ha]
  · simp only [Bool.not_eq_true] at hu
    simp only [hu, Bool.false_eq_true, if_false]
    have hacc : hhas (hset (copyHeaders inb []) "User-Agent" defaultUserAgent) "accept" =
        hhas (copyHeaders inb []) "accept" :=
      hhas_hset_ne _ (by decide)
    rw [hacc]
    by_cases ha : hhas (copyHeaders inb []) "accept" = true
    · simp only [ha, if_true, hget_hset]
      by_cases hr : nameEq k "Referer" = true <;>
        by_cases hU : nameEq k "User-Agent" = true <;>
          by_cases hA : nameEq k "Accept" = true <;>
            first
              | exact absurd ((eq_of_nameEq hU).symm.trans (eq_of_nameEq hA)) (by decide)
              | simp [hr, hU, hA, hu, ha]
    · simp only [Bool.not_eq_true] at ha
      simp only [ha, Bool.false_eq_true, if_false, hget_hset]
      by_cases hr : nameEq k "Referer" = true <;>
        by_cases hU : nameEq k "User-Agent" = true <;>
          by_cases hA : nameEq k "Accept" = true <;>
            first
              | exact absurd ((eq_of_nameEq hU).symm.trans (eq_of_nameEq hA)) (by decide)
              | simp [hr, hU, hA, hu, ha]

/-! ### Claim C3 — header sanitizer -/

/-- C3: for every inbound header mapping, the outgoing headers contain no
`host`, `cookie` or `content-length` entry (case-insensitively);
`User-Agent` and `Accept` are defaulted when absent from the inbound
headers; and `Referer` is unconditionally the decoded target URL. -/
theorem claim_C3_header_sanitizer (reqHeaders : List (String × String)) (targetUrl : String) :
    hget (buildOutgoingHeaders reqHeaders targetUrl) "host" = none ∧
    hget (buildOutgoingHeaders reqHeaders targetUrl) "cookie" = none ∧
    hget (buildOutgoingHeaders reqHeaders targetUrl) "content-length" = none ∧
    ((∀ p ∈ reqHeaders, nameEq p.1 "user-agent" = false) →
      hget (buildOutgoingHeaders reqHeaders targetUrl) "user-agent" = some defaultUserAgent) ∧
    ((∀ p ∈ reqHeaders, nameEq p.1 "accept" = false) →
      hget (buildOutgoingHeaders reqHeaders targetUrl) "accept" = some "*/*") ∧
    hget (buildOutgoingHeaders reqHeaders targetUrl) "Referer" = some targetUrl := by
  refine ⟨?_, ?_, ?_, ?_, ?_, ?_⟩
  · rw [buildOutgoing_hget, if_neg (by decide), if_neg (by decide), if_neg (by decide),
      copyHeaders_nil_hget, if_pos (by decide)]
  · rw [buildOutgoing_hget, if_neg (by decide), if_neg (by decide), if_neg (by decide),
      copyHeaders_nil_hget, if_pos (by decide)]
  · rw [buildOutgoing_hget, if_neg (by decide), if_neg (by decide), if_neg (by decide),
      copyHeaders_nil_hget, if_pos (by decide)]
  · intro h
    have h1n : hget (copyHeaders reqHeaders []) "user-agent" = none := by
      rw [copyHeaders_nil_hget, if_neg (by decide)]
      exact lastCi_eq_none.mpr h
    rw [buildOutgoing_hget, if_neg (by decide), if_pos (by decide),
      if_neg (by simp [hhas, h1n])]
  · intro h
    have h1n : hget (copyHeaders reqHeaders []) "accept" = none := by
      rw [copyHeaders_nil_hget, if_neg (by decide)]
      exact lastCi_eq_none.mpr h
    rw [buildOutgoing_hget, if_neg (by decide), if_neg (by decide), if_pos (by decide),
      if_neg (by simp [hhas, h1n])]
  · rw [buildOutgoing_hget, if_pos (by decide)]

/-- C3 witness at a concrete inbound mapping. -/
theorem claim_C3_header_sanitizer_witness :
    hget (buildOutgoingHeaders [("Host", "h"), ("X-Custom", "1")] "https://t.example/")
      "user-agent" = some defaultUserAgent ∧
    hget (buildOutgoingHeaders [("Host", "h"), ("X-Custom", "1")] "https://t.example/")
      "Referer" = some "https://t.example/" := by
  obtain ⟨-, -, -, h4, -, h6⟩ :=
    claim_C3_header_sanitizer [("Host", "h"), ("X-Custom", "1")] "https://t.example/"
  exact ⟨h4 (by decide), h6⟩

/-! ### Claim C10 — duplicate inbound headers -/

/-- C10 counterexample: two inbound `Referer` entries; the claim says the
last-seen value `"b"` is forwarded, but the produced value is the target
URL `"T"`. -/
theorem claim_C10_counterexample :
    hget (buildOutgoingHeaders [("Referer", "a"), ("Referer", "b")] "T") "Referer"
      = some "T" ∧ some "T" ≠ some "b" := by
  refine ⟨by decide, by decide⟩

/-- C10 amended: every key appears at most once in the outgoing headers
(case-insensitively), and a duplicated inbound key is forwarded as a
single entry carrying the last-seen value — except `Referer`, whose value
is unconditionally the decoded target URL. -/
theorem claim_C10_amended (reqHeaders : List (String × String)) (targetUrl : String) :
    ciDistinct (buildOutgoingHeaders reqHeaders targetUrl) ∧
    (∀ k v, forbiddenHeader (lowerStr k) = false → nameEq k "Referer" = false →
      lastCi reqHeaders k = some v →
      hget (buildOutgoingHeaders reqHeaders targetUrl) k = some v) ∧
    hget (buildOutgoingHeaders reqHeaders targetUrl) "Referer" = some targetUrl := by
  refine ⟨ciDistinct_buildOutgoing reqHeaders targetUrl, ?_, ?_⟩
  · intro k v hf hr hl
    have hk : hget (copyHeaders reqHeaders []) k = some v := by
      rw [copyHeaders_nil_hget, hf]
      simpa using hl
    rw [buildOutgoing_hget, if_neg (by simp [hr])]
    by_cases hU : nameEq k "User-Agent" = true
    · have hcongr : hget (copyHeaders reqHeaders []) "user-agent" =
          hget (copyHeaders reqHeaders []) k :=
        hget_congr _ (by rw [show lowerStr "user-agent" = lowerStr "User-Agent" from by decide,
          ← eq_of_nameEq hU])
      rw [if_pos hU, if_pos (by simp [hhas, hcongr, hk])]
      exact hk
    · rw [if_neg hU]
      by_cases hA : nameEq k "Accept" = true
      · have hcongr : hget (copyHeaders reqHeaders []) "accept" =
            hget (copyHeaders reqHeaders []) k :=
          hget_congr _ (by rw [show lowerStr "accept" = lowerStr "Accept" from by decide,
            ← eq_of_nameEq hA])
        rw [if_pos hA, if_pos (by simp [hhas, hcongr, hk])]
        exact hk
      · rw [if_neg hA]
        exact hk
  · rw [buildOutgoing_hget, if_pos (by decide)]

/-- C10 amended witness at a concrete duplicated inbound key. -/
theorem claim_C10_amended_witness :
    hget (buildOutgoingHeaders [("X-A", "1"), ("X-A", "2")] "T") "X-A" = some "2" := by
  obtain ⟨-, h2, -⟩ := claim_C10_amended [("X-A", "1"), ("X-A", "2")] "T"
  exact h2 "X-A" "2" (by decide) (by decide) (by decide)

/-! ### Claim C2 — loop protection -/

/-- C2: whenever the decoded target string textually starts with the
own origin of the proxy (a prefix match, not an origin-equality check), the
response is the 400 loop-protection message and no fetch at all is
issued. -/
theorem claim_C2_loop_protection (ctx : ProxyCtx) (env : JsEnv) (tp t : String)
    (hp : ctx.targetParam = some tp) (hne : tp ≠ "")
    (hdec : decodeURIComponent tp = some t)
    (hloop : strStartsWith t (env.urlOrigin ctx.requestUrl) = true) :
    onRequest ctx env =
      (.ok ⟨400, "", [], .text "Refusing to proxy this origin (loop protection)."⟩, []) := by
  rw [onRequest, hp]
  simp only [hdec]
  rw [if_neg (by simpa using hne), if_pos hloop]

/-- C2 witness: a target that textually extends the proxy origin into a
different host is still rejected. -/
theorem claim_C2_loop_protection_witness :
    onRequest ⟨"GET", "https://prox.example/p/x", [], some "https://prox.examplezz"⟩
      ⟨fun _ => "https://prox.example", .error (), fun u => .ok u, .error "no"⟩ =
      (.ok ⟨400, "", [], .text "Refusing to proxy this origin (loop protection)."⟩, []) :=
  claim_C2_loop_protection _ _ "https://prox.examplezz" "https://prox.examplezz"
    rfl (by decide) (by decide) (by decide)

/-! ### Claim C6 — CORS headers on every response -/

theorem applyCors_gets (hs : List (String × String)) (v : String) :
    hget (applyCors hs v) "Access-Control-Allow-Origin" = some "*" ∧
    hget (applyCors hs v) "Access-Control-Allow-Methods" = some "GET, POST, PUT, DELETE, OPTIONS" ∧
    hget (applyCors hs v) "Access-Control-Allow-Headers" = some "*" ∧
    hget (applyCors hs v) "X-App-Version" = some v := by
  refine ⟨?_, ?_, ?_, ?_⟩
  · rw [applyCors, hget_hset, if_neg (by decide), hget_hset, if_neg (by decide),
      hget_hset, if_neg (by decide), hget_hset, if_pos (by decide)]
  · rw [applyCors, hget_hset, if_neg (by decide), hget_hset, if_neg (by decide),
      hget_hset, if_pos (by decide)]
  · rw [applyCors, hget_hset, if_neg (by decide), hget_hset, if_pos (by decide)]
  · rw [applyCors, hget_hset, if_pos (by decide)]

/-- C6 counterexample: the missing-target 400 response carries no headers
at all, in particular no `Access-Control-Allow-Origin`. -/
theorem claim_C6_counterexample :
    (onRequest ⟨"GET", "R", [], none⟩
        ⟨fun _ => "O", .error (), fun u => .ok u, .error "no"⟩).1
      = .ok ⟨400, "", [], .text "Missing target URL"⟩ ∧
    hget [] "Access-Control-Allow-Origin" = none :=
  ⟨rfl, rfl⟩

/-- C6 amended: the OPTIONS 204 response and both success responses
(HTML rewrite and passthrough) carry the three CORS headers and the
`X-App-Version` tag; the missing-target 400, the loop-protection 400 and
the two 502 error responses carry no headers at all. -/
theorem claim_C6_amended (ctx : ProxyCtx) (env : JsEnv) :
    (∀ tp t, ctx.method = "OPTIONS" → ctx.targetParam = some tp → tp ≠ "" →
      decodeURIComponent tp = some t →
      strStartsWith t (env.urlOrigin ctx.requestUrl) = false →
      ∀ r trace, onRequest ctx env = (.ok r, trace) →
        r.status = 204 ∧
        hget r.headers "Access-Control-Allow-Origin" = some "*" ∧
        hget r.headers "Access-Control-Allow-Methods" = some "GET, POST, PUT, DELETE, OPTIONS" ∧
        hget r.headers "Access-Control-Allow-Headers" = some "*" ∧
        hget r.headers "X-App-Version" = some (computeVersion env.versionFetch)) ∧
    (∀ tp t reqUrl up, ctx.targetParam = some tp → tp ≠ "" →
      decodeURIComponent tp = some t →
      strStartsWith t (env.urlOrigin ctx.requestUrl) = false →
      ctx.method ≠ "OPTIONS" → env.parseAbs t = .ok reqUrl → env.targetFetch = .ok up →
      ∀ r trace, onRequest ctx env = (.ok r, trace) →
        hget r.headers "Access-Control-Allow-Origin" = some "*" ∧
        hget r.headers "Access-Control-Allow-Methods" = some "GET, POST, PUT, DELETE, OPTIONS" ∧
        hget r.headers "Access-Control-Allow-Headers" = some "*" ∧
        hget r.headers "X-App-Version" = some (computeVersion env.versionFetch)) ∧
    (ctx.targetParam = none ∨ ctx.targetParam = some "" →
      ∀ r trace, onRequest ctx env = (.ok r, trace) → r.status = 400 ∧ r.headers = []) ∧
    (∀ tp t, ctx.targetParam = some tp → tp ≠ "" → decodeURIComponent tp = some t →
      strStartsWith t (env.urlOrigin ctx.requestUrl) = true →
      ∀ r trace, onRequest ctx env = (.ok r, trace) → r.status = 400 ∧ r.headers = []) ∧
    (∀ tp t msg, ctx.targetParam = some tp → tp ≠ "" → decodeURIComponent tp = some t →
      strStartsWith t (env.urlOrigin ctx.requestUrl) = false → ctx.method ≠ "OPTIONS" →
      env.parseAbs t = .error msg →
      ∀ r trace, onRequest ctx env = (.ok r, trace) → r.status = 502 ∧ r.headers = []) ∧
    (∀ tp t reqUrl msg, ctx.targetParam = some tp → tp ≠ "" →
      decodeURIComponent tp = some t →
      strStartsWith t (env.urlOrigin ctx.requestUrl) = false → ctx.method ≠ "OPTIONS" →
      env.parseAbs t = .ok reqUrl → env.targetFetch = .error msg →
      ∀ r trace, onRequest ctx env = (.ok r, trace) → r.status = 502 ∧ r.headers = []) := by
  refine ⟨?_, ?_, ?_, ?_, ?_, ?_⟩
  · intro tp t hm hp hne hdec hloop r trace h
    rw [onRequest, hp] at h
    simp only [hdec] at h
    rw [if_neg (by simpa using hne), if_neg (by simp [hloop]), if_pos (by simp [hm])] at h
    obtain ⟨hA, -⟩ := Prod.mk.inj h
    injection hA with h2
    subst h2
    exact ⟨rfl, applyCors_gets [] _⟩
  · intro tp t reqUrl up hp hne hdec hloop hm hparse hfetch r trace h
    rw [onRequest, hp] at h
    simp only [hdec] at h
    rw [if_neg (by simpa using hne), if_neg (by simp [hloop]),
      if_neg (by simpa using hm)] at h
    simp only [hparse, hfetch] at h
    by_cases hct : isHtmlContentType (lowerStr ((hget up.headers "Content-Type").getD ""))
        = true
    · rw [if_pos hct] at h
      obtain ⟨hA, -⟩ := Prod.mk.inj h
      injection hA with h2
      subst h2
      exact applyCors_gets _ _
    · rw [if_neg hct] at h
      obtain ⟨hA, -⟩ := Prod.mk.inj h
      injection hA with h2
      subst h2
      exact applyCors_gets _ _
  · intro hp r trace h
    rcases hp with hp | hp
    · rw [onRequest, hp] at h
      obtain ⟨hA, -⟩ := Prod.mk.inj h
      injection hA with h2
      subst h2
      exact ⟨rfl, rfl⟩
    · rw [onRequest, hp] at h
      have h9 : (Except.ok (⟨400, "", [], .text "Missing target URL"⟩ : Resp),
          ([] : List String)) = (Except.ok r, trace) := h
      obtain ⟨hA, -⟩ := Prod.mk.inj h9
      injection hA with h2
      subst h2
      exact ⟨rfl, rfl⟩
  · intro tp t hp hne hdec hloop r trace h
    rw [onRequest, hp] at h
    simp only [hdec] at h
    rw [if_neg (by simpa using hne), if_pos hloop] at h
    obtain ⟨hA, -⟩ := Prod.mk.inj h
    injection hA with h2
    subst h2
    exact ⟨rfl, rfl⟩
  · intro tp t msg hp hne hdec hloop hm hparse r trace h
    rw [onRequest, hp] at h
    simp only [hdec] at h
    rw [if_neg (by simpa using hne), if_neg (by simp [hloop]),
      if_neg (by simpa using hm)] at h
    simp only [hparse] at h
    obtain ⟨hA, -⟩ := Prod.mk.inj h
    injection hA with h2
    subst h2
    exact ⟨rfl, rfl⟩
  · intro tp t reqUrl msg hp hne hdec hloop hm hparse hfetch r trace h
    rw [onRequest, hp] at h
    simp only [hdec] at h
    rw [if_neg (by simpa using hne), if_neg (by simp [hloop]),
      if_neg (by simpa using hm)] at h
    simp only [hparse, hfetch] at h
    obtain ⟨hA, -⟩ := Prod.mk.inj h
    injection hA with h2
    subst h2
    exact ⟨rfl, rfl⟩

/-- C6 amended witness: a concrete OPTIONS 204 response and a concrete
passthrough success response both carry the CORS headers, and a concrete
missing-target 400 carries none. -/
theorem claim_C6_amended_witness :
    (hget (corsHeaders "0.0.0") "Access-Control-Allow-Origin" = some "*" ∧
     hget (corsHeaders "0.0.0") "Access-Control-Allow-Methods"
        = some "GET, POST, PUT, DELETE, OPTIONS" ∧
     hget (corsHeaders "0.0.0") "Access-Control-Allow-Headers" = some "*" ∧
     hget (corsHeaders "0.0.0") "X-App-Version" = some "0.0.0") ∧
    hget [("Content-Type", "image/png"), ("X-Proxy-Target", "t"),
        ("X-Proxy-Request-URL", "t"), ("X-Fetched-URL", "U"), ("X-App-Version", "0.0.0"),
        ("Access-Control-Allow-Origin", "*"),
        ("Access-Control-Allow-Methods", "GET, POST, PUT, DELETE, OPTIONS"),
        ("Access-Control-Allow-Headers", "*")] "Access-Control-Allow-Origin" = some "*" ∧
    (⟨400, "", [], .text "Missing target URL"⟩ : Resp).headers = [] := by
  refine ⟨?_, ?_, ?_⟩
  · have h := (claim_C6_amended ⟨"OPTIONS", "R", [], some "t"⟩
      ⟨fun _ => "O", .error (), fun u => .ok u, .error "no"⟩).1 "t" "t"
      rfl rfl (by decide) rfl rfl
      ⟨204, "", corsHeaders "0.0.0", .empty⟩ ["O/VERSION"] rfl
    exact h.2
  · have h := (claim_C6_amended ⟨"GET", "R", [], some "t"⟩
      ⟨fun _ => "O", .error (), fun u => .ok u,
       .ok ⟨200, "OK", [("Content-Type", "image/png")], "U"⟩⟩).2.1 "t" "t" "t"
      ⟨200, "OK", [("Content-Type", "image/png")], "U"⟩
      rfl (by decide) rfl rfl (by decide) rfl rfl
      ⟨200, "OK",
        [("Content-Type", "image/png"), ("X-Proxy-Target", "t"),
         ("X-Proxy-Request-URL", "t"), ("X-Fetched-URL", "U"), ("X-App-Version", "0.0.0"),
         ("Access-Control-Allow-Origin", "*"),
         ("Access-Control-Allow-Methods", "GET, POST, PUT, DELETE, OPTIONS"),
         ("Access-Control-Allow-Headers", "*")], .upstream⟩ ["O/VERSION", "t"] rfl
    exact h.1
  · have h := (claim_C6_amended ⟨"GET", "R", [], none⟩
      ⟨fun _ => "O", .error (), fun u => .ok u, .error "no"⟩).2.2.1 (Or.inl rfl)
      ⟨400, "", [], .text "Missing target URL"⟩ [] rfl
    exact h.2

/-! ### Claim C8 — OPTIONS handling -/

/-- C8 counterexample: an OPTIONS request whose target `"%"` is present
and does not trigger loop protection still fails to yield 204 — the
`URIError` from `decodeURIComponent` escapes the handler instead. -/
theorem claim_C8_counterexample :
    (onRequest ⟨"OPTIONS", "R", [], some "%"⟩
        ⟨fun _ => "O", .error (), fun u => .ok u, .error "no"⟩).1
      = .error .uriError := rfl

/-- C8 amended: an OPTIONS request with a present target whose
percent-decoding succeeds and that does not trigger loop protection
yields 204 with the CORS headers and an empty body, with only the
best-effort version fetch issued (no target fetch); the missing-target
and loop checks run before the OPTIONS short-circuit, so OPTIONS with a
missing or loop-triggering target yields 400, not 204. -/
theorem claim_C8_amended (ctx : ProxyCtx) (env : JsEnv) :
    (∀ tp t, ctx.method = "OPTIONS" → ctx.targetParam = some tp → tp ≠ "" →
      decodeURIComponent tp = some t →
      strStartsWith t (env.urlOrigin ctx.requestUrl) = false →
      onRequest ctx env =
        (.ok ⟨204, "", corsHeaders (computeVersion env.versionFetch), .empty⟩,
          [env.urlOrigin ctx.requestUrl ++ "/VERSION"])) ∧
    (ctx.targetParam = none ∨ ctx.targetParam = some "" →
      onRequest ctx env = (.ok ⟨400, "", [], .text "Missing target URL"⟩, [])) ∧
    (∀ tp t, ctx.targetParam = some tp → tp ≠ "" → decodeURIComponent tp = some t →
      strStartsWith t (env.urlOrigin ctx.requestUrl) = true →
      onRequest ctx env =
        (.ok ⟨400, "", [], .text "Refusing to proxy this origin (loop protection)."⟩, [])) := by
  refine ⟨?_, ?_, ?_⟩
  · intro tp t hm hp hne hdec hloop
    rw [onRequest, hp]
    simp only [hdec]
    rw [if_neg (by simpa using hne), if_neg (by simp [hloop]), if_pos (by simp [hm])]
  · intro hp
    rcases hp with hp | hp
    · rw [onRequest, hp]
    · rw [onRequest, hp]
      rfl
  · intro tp t hp hne hdec hloop
    rw [onRequest, hp]
    simp only [hdec]
    rw [if_neg (by simpa using hne), if_pos hloop]

/-- C8 amended witness at a concrete OPTIONS request. -/
theorem claim_C8_amended_witness :
    onRequest ⟨"OPTIONS", "R", [], some "t"⟩
        ⟨fun _ => "O", .error (), fun u => .ok u, .error "no"⟩ =
      (.ok ⟨204, "", corsHeaders "0.0.0", .empty⟩, ["O/VERSION"]) := by
  have h := (claim_C8_amended ⟨"OPTIONS", "R", [], some "t"⟩
    ⟨fun _ => "O", .error (), fun u => .ok u, .error "no"⟩).1 "t" "t"
    rfl rfl (by decide) rfl rfl
  exact h

/-! ### Claim C5 — invalid target handling -/

/-- C5 counterexample: for the raw segment `"%"` percent-decoding fails,
but the result is not an HTTP 400 response — the `URIError` escapes the
guarded boundary (the `decodeURIComponent` call sits outside the `try`). -/
theorem claim_C5_counterexample :
    (onRequest ⟨"GET", "R", [], some "%"⟩
        ⟨fun _ => "O", .error (), fun u => .ok u, .error "no"⟩).1
      = .error .uriError := rfl

/-- C5 amended: a raw segment whose percent-decoding fails makes the
`URIError` escape the handler uncaught, with no fetch issued and no 400
response; a decoded target that is not a parseable absolute URL makes
`new Request` throw inside the guarded boundary, producing the 502
`Proxy failed` response, not a 400. -/
theorem claim_C5_amended (ctx : ProxyCtx) (env : JsEnv) :
    (∀ tp, ctx.targetParam = some tp → tp ≠ "" → decodeURIComponent tp = none →
      onRequest ctx env = (.error .uriError, [])) ∧
    (∀ tp t msg, ctx.targetParam = some tp → tp ≠ "" → decodeURIComponent tp = some t →
      strStartsWith t (env.urlOrigin ctx.requestUrl) = false →
      ctx.method ≠ "OPTIONS" → env.parseAbs t = .error msg →
      onRequest ctx env =
        (.ok ⟨502, "", [], .text ("Proxy failed: " ++ msg ++ "\n\nTarget: " ++ t)⟩,
          [env.urlOrigin ctx.requestUrl ++ "/VERSION"])) := by
  constructor
  · intro tp hp hne hdec
    rw [onRequest, hp]
    simp only [hdec]
    rw [if_neg (by simpa using hne)]
  · intro tp t msg hp hne hdec hloop hm hparse
    rw [onRequest, hp]
    simp only [hdec]
    rw [if_neg (by simpa using hne), if_neg (by simp [hloop]),
      if_neg (by simpa using hm)]
    simp only [hparse]

/-- C5 amended witness: a decode failure and an unparseable decoded target
at concrete inputs. -/
theorem claim_C5_amended_witness :
    (onRequest ⟨"GET", "R", [], some "%A"⟩
        ⟨fun _ => "O", .error (), fun u => .ok u, .error "no"⟩ = (.error .uriError, [])) ∧
    (onRequest ⟨"GET", "R", [], some "notaurl"⟩
        ⟨fun _ => "O", .error (), fun _ => .error "Invalid URL", .error "no"⟩ =
      (.ok ⟨502, "", [], .text ("Proxy failed: " ++ "Invalid URL" ++ "\n\nTarget: " ++ "notaurl")⟩,
        ["O/VERSION"])) := by
  constructor
  · exact (claim_C5_amended ⟨"GET", "R", [], some "%A"⟩
      ⟨fun _ => "O", .error (), fun u => .ok u, .error "no"⟩).1 "%A" rfl (by decide) rfl
  · exact (claim_C5_amended ⟨"GET", "R", [], some "notaurl"⟩
      ⟨fun _ => "O", .error (), fun _ => .error "Invalid URL", .error "no"⟩).2
      "notaurl" "notaurl" "Invalid URL" rfl (by decide) rfl (by decide) (by decide) rfl

/-! ### Claim C4 — content-type dispatch -/

/-- C4 counterexample: on the passthrough path the code also deletes
`x-frame-options`, a header change that is neither diagnostic nor CORS;
the upstream carried it, the response does not. -/
theorem claim_C4_counterexample :
    (onRequest ⟨"GET", "R", [], some "t"⟩
        ⟨fun _ => "O", .error (), fun u => .ok u,
         .ok ⟨200, "OK", [("Content-Type", "image/png"), ("x-frame-options", "DENY"),
            ("Server", "s")], "U"⟩⟩).1 =
      .ok ⟨200, "OK",
        [("Content-Type", "image/png"), ("Server", "s"), ("X-Proxy-Target", "t"),
         ("X-Proxy-Request-URL", "t"), ("X-Fetched-URL", "U"), ("X-App-Version", "0.0.0"),
         ("Access-Control-Allow-Origin", "*"),
         ("Access-Control-Allow-Methods", "GET, POST, PUT, DELETE, OPTIONS"),
         ("Access-Control-Allow-Headers", "*")], .upstream⟩ ∧
    hget [("Content-Type", "image/png"), ("Server", "s"), ("X-Proxy-Target", "t"),
         ("X-Proxy-Request-URL", "t"), ("X-Fetched-URL", "U"), ("X-App-Version", "0.0.0"),
         ("Access-Control-Allow-Origin", "*"),
         ("Access-Control-Allow-Methods", "GET, POST, PUT, DELETE, OPTIONS"),
         ("Access-Control-Allow-Headers", "*")] "x-frame-options" = none ∧
    hget [("Content-Type", "image/png"), ("x-frame-options", "DENY"), ("Server", "s")]
      "x-frame-options" = some "DENY" :=
  ⟨rfl, rfl, rfl⟩

/-- C4 amended: on the success path, the HTML rewrite transform is applied
iff the upstream `Content-Type`, lower-cased, starts with `text/html` or
contains `xml`; for every other content type the body is the upstream
stream unchanged, the upstream status and status text are mirrored, the
`x-frame-options` header is removed, and every header that is not one of
the diagnostic, CORS or `x-frame-options` names keeps its upstream value. -/
theorem claim_C4_amended (ctx : ProxyCtx) (env : JsEnv) (tp t reqUrl : String)
    (up : UpstreamResp)
    (hp : ctx.targetParam = some tp) (hne : tp ≠ "")
    (hdec : decodeURIComponent tp = some t)
    (hloop : strStartsWith t (env.urlOrigin ctx.requestUrl) = false)
    (hm : ctx.method ≠ "OPTIONS")
    (hparse : env.parseAbs t = .ok reqUrl)
    (hfetch : env.targetFetch = .ok up) :
    ∀ r trace, onRequest ctx env = (.ok r, trace) →
      (r.body = .rewritten (env.urlOrigin ctx.requestUrl ++ "/p/") t ↔
        isHtmlContentType (lowerStr ((hget up.headers "Content-Type").getD "")) = true) ∧
      (isHtmlContentType (lowerStr ((hget up.headers "Content-Type").getD "")) = false →
        r.body = .upstream ∧ r.status = up.status ∧ r.statusText = up.statusText ∧
        hget r.headers "x-frame-options" = none ∧
        (∀ k, nameEq k "X-Proxy-Target" = false → nameEq k "X-Proxy-Request-URL" = false →
          nameEq k "X-Fetched-URL" = false → nameEq k "X-App-Version" = false →
          nameEq k "x-frame-options" = false →
          nameEq k "Access-Control-Allow-Origin" = false →
          nameEq k "Access-Control-Allow-Methods" = false →
          nameEq k "Access-Control-Allow-Headers" = false →
          hget r.headers k = hget up.headers k)) := by
  intro r trace h
  rw [onRequest, hp] at h
  simp only [hdec] at h
  rw [if_neg (by simpa using hne), if_neg (by simp [hloop]),
    if_neg (by simpa using hm)] at h
  simp only [hparse, hfetch] at h
  by_cases hct : isHtmlContentType (lowerStr ((hget up.headers "Content-Type").getD "")) = true
  · rw [if_pos hct] at h
    obtain ⟨hA, -⟩ := Prod.mk.inj h
    injection hA with h2
    subst h2
    refine ⟨by simp [hct], ?_⟩
    intro hcf
    rw [hct] at hcf
    exact absurd hcf (by simp)
  · rw [if_neg hct] at h
    obtain ⟨hA, -⟩ := Prod.mk.inj h
    injection hA with h2
    subst h2
    simp only [Bool.not_eq_true] at hct
    refine ⟨by simp [hct], ?_⟩
    intro _
    refine ⟨rfl, rfl, rfl, ?_, ?_⟩
    · rw [applyCors, hget_hset, if_neg (by decide), hget_hset, if_neg (by decide),
        hget_hset, if_neg (by decide), hget_hset, if_neg (by decide),
        hget_hdelete, if_pos (by decide)]
    · intro k h1 h2 h3 h4 h5 h6 h7 h8
      rw [applyCors, hget_hset, if_neg (by simp [h4]), hget_hset, if_neg (by simp [h8]),
        hget_hset, if_neg (by simp [h7]), hget_hset, if_neg (by simp [h6]),
        hget_hdelete, if_neg (by simp [h5]), diagHeaders,
        hget_hset, if_neg (by simp [h4]), hget_hset, if_neg (by simp [h3]),
        hget_hset, if_neg (by simp [h2]), hget_hset, if_neg (by simp [h1])]

/-- C4 amended witness: on a concrete `image/png` response the `Server`
header keeps its upstream value. -/
theorem claim_C4_amended_witness :
    hget [("Content-Type", "image/png"), ("Server", "s"), ("X-Proxy-Target", "t"),
        ("X-Proxy-Request-URL", "t"), ("X-Fetched-URL", "U"), ("X-App-Version", "0.0.0"),
        ("Access-Control-Allow-Origin", "*"),
        ("Access-Control-Allow-Methods", "GET, POST, PUT, DELETE, OPTIONS"),
        ("Access-Control-Allow-Headers", "*")] "Server" =
      hget [("Content-Type", "image/png"), ("x-frame-options", "DENY"), ("Server", "s")]
        "Server" := by
  have h := claim_C4_amended ⟨"GET", "R", [], some "t"⟩
    ⟨fun _ => "O", .error (), fun u => .ok u,
     .ok ⟨200, "OK", [("Content-Type", "image/png"), ("x-frame-options", "DENY"),
        ("Server", "s")], "U"⟩⟩
    "t" "t" "t"
    ⟨200, "OK", [("Content-Type", "image/png"), ("x-frame-options", "DENY"),
      ("Server", "s")], "U"⟩
    rfl (by decide) rfl (by decide) (by decide) rfl rfl
    ⟨200, "OK",
      [("Content-Type", "image/png"), ("Server", "s"), ("X-Proxy-Target", "t"),
       ("X-Proxy-Request-URL", "t"), ("X-Fetched-URL", "U"), ("X-App-Version", "0.0.0"),
       ("Access-Control-Allow-Origin", "*"),
       ("Access-Control-Allow-Methods", "GET, POST, PUT, DELETE, OPTIONS"),
       ("Access-Control-Allow-Headers", "*")], .upstream⟩
    ["O/VERSION", "t"] rfl
  exact (h.2 (by decide)).2.2.2.2 "Server" (by decide) (by decide) (by decide) (by decide)
    (by decide) (by decide) (by decide) (by decide)

/-! ### Claim C1 — link-bearing elements -/

theorem getAttr_setAttrList (l : List (String × String)) (a x : String)
    (h : ((l.find? (fun p => p.1 == a)).map (·.2)).isSome = true) :
    ((setAttrList l a x).find? (fun p => p.1 == a)).map (·.2) = some x := by
  induction l with
  | nil => simp [List.find?] at h
  | cons p t ih =>
    obtain ⟨k, v0⟩ := p
    by_cases hk : (k == a) = true
    · simp [setAttrList, hk, List.find?]
    · simp only [setAttrList, hk, Bool.false_eq_true, if_false]
      simp only [List.find?, hk] at h ⊢
      exact ih h

/-- `setAttribute` on a present attribute makes `getAttribute` return the
new value. -/
theorem getAttribute_setAttribute (e : Element) (a v x : String)
    (h : getAttribute e a = some v) :
    getAttribute (setAttribute e a x) a = some x := by
  have hs : ((e.attrs.find? (fun p => p.1 == a)).map (·.2)).isSome = true := by
    rw [getAttribute] at h
    rw [h]
    rfl
  exact getAttr_setAttrList e.attrs a x hs

/-- C1 counterexample: a `script` element carrying both `href` and `src`.
Its `src` is present, non-empty and resolvable, so the claim requires the
`src` attribute to be rewritten — but the handler prefers the `href`
attribute and leaves `src` untouched. -/
theorem claim_C1_counterexample :
    rewriteLinkElement (fun v b => some (b ++ v)) "https://prox/p/" "https://e.com"
        ⟨"script", [("href", "/h"), ("src", "/a")]⟩ =
      ⟨"script", [("href", "https://prox/p/" ++ encodeURIComponent "https://e.com/h"),
        ("src", "/a")]⟩ ∧
    getAttribute (rewriteLinkElement (fun v b => some (b ++ v)) "https://prox/p/"
        "https://e.com" ⟨"script", [("href", "/h"), ("src", "/a")]⟩) "src" = some "/a" ∧
    some "/a" ≠ some ("https://prox/p/" ++ encodeURIComponent ("https://e.com" ++ "/a")) :=
  ⟨rfl, rfl, by decide⟩

/-- C1 amended: the handler rewrites exactly one designated attribute —
`action` for `form` elements, otherwise `href` when an `href` attribute is
present (even on the `src`-selected elements), otherwise `src`.  When the
designated attribute is present and non-empty, a resolvable value is
rewritten to `proxyBase ++ encodeURIComponent(resolved href)` and an
unresolvable value leaves the element unchanged with no error. -/
theorem claim_C1_amended (resolve : String → String → Option String)
    (proxyBase baseUrl : String) (e : Element) (a v : String)
    (ha : designatedAttr e = some a) (hv : getAttribute e a = some v) (hne : v ≠ "") :
    (∀ href, resolve v baseUrl = some href →
      rewriteLinkElement resolve proxyBase baseUrl e =
        setAttribute e a (proxyBase ++ encodeURIComponent href)) ∧
    (resolve v baseUrl = none → rewriteLinkElement resolve proxyBase baseUrl e = e) := by
  constructor
  · intro href hr
    rw [rewriteLinkElement]
    simp only [ha, hv, hr]
    rw [if_neg (by simpa using hne)]
  · intro hr
    rw [rewriteLinkElement]
    simp only [ha, hv, hr]
    exact ite_self e

/-- C1 amended witness: a plain anchor with a resolvable relative `href`. -/
theorem claim_C1_amended_witness :
    rewriteLinkElement (fun v b => some (b ++ v)) "P/" "B" ⟨"a", [("href", "/x")]⟩ =
      setAttribute ⟨"a", [("href", "/x")]⟩ "href" ("P/" ++ encodeURIComponent "B/x") :=
  (claim_C1_amended (fun v b => some (b ++ v)) "P/" "B" ⟨"a", [("href", "/x")]⟩
    "href" "/x" rfl rfl (by decide)).1 "B/x" rfl

/-! ### Claim C7 — encode/decode round trip -/

theorem hexVal_hexDigit : ∀ n < 16, hexVal (hexDigit n) = some n := by decide

theorem readPct_pctByte (b : Nat) (hb : b < 256) (r : List Char) :
    readPct (pctByte b ++ r) = some (b, r) := by
  have h1 := hexVal_hexDigit (b / 16) (by omega)
  have h2 := hexVal_hexDigit (b % 16) (by omega)
  simp only [pctByte, List.cons_append, List.nil_append, readPct, h1, h2]
  rw [if_pos (by decide)]
  have hb' : 16 * (b / 16) + b % 16 = b := by omega
  rw [hb']

theorem char_valid_range (c : Char) :
    c.toNat < 0xD800 ∨ (0xE000 ≤ c.toNat ∧ c.toNat < 0x110000) := by
  rcases c.valid with h | ⟨h1, h2⟩
  · exact Or.inl (UInt32.toNat_lt_of_lt (m := 0xD800) (by decide) h)
  · have g1 := UInt32.lt_toNat_of_lt (m := 0xDFFF) (by decide) h1
    have g2 := UInt32.toNat_lt_of_lt (m := 0x110000) (by decide) h2
    have e : c.toNat = c.val.toNat := rfl
    exact Or.inr ⟨by omega, g2⟩

theorem decodeSeq_encodeChar (c : Char) (h : isUriUnreserved c.toNat = false)
    (r : List Char) : decodeSeq (encodeChar c ++ r) = some (c, r) := by
  have hv := char_valid_range c
  by_cases h1 : c.toNat < 0x80
  · have hb : encodeChar c = pctByte c.toNat := by
      simp [encodeChar, h, utf8Bytes, h1]
    rw [hb]
    have e1 := readPct_pctByte c.toNat (by omega) r
    simp only [decodeSeq, e1]
    rw [if_pos h1, Char.ofNat_toNat]
  · by_cases h2 : c.toNat < 0x800
    · have hb : encodeChar c ++ r =
          pctByte (0xC0 + c.toNat / 64) ++ (pctByte (0x80 + c.toNat % 64) ++ r) := by
        simp [encodeChar, h, utf8Bytes, h1, h2]
      rw [hb]
      have e1 := readPct_pctByte (0xC0 + c.toNat / 64) (by omega)
        (pctByte (0x80 + c.toNat % 64) ++ r)
      have e2 := readPct_pctByte (0x80 + c.toNat % 64) (by omega) r
      simp only [decodeSeq, e1, e2]
      rw [if_neg (by omega), if_neg (by omega), if_pos (by omega), if_pos (by omega)]
      have hval : (0xC0 + c.toNat / 64 - 0xC0) * 64 + (0x80 + c.toNat % 64 - 0x80)
          = c.toNat := by omega
      rw [hval, Char.ofNat_toNat]
    · by_cases h3 : c.toNat < 0x10000
      · have hb : encodeChar c ++ r =
            pctByte (0xE0 + c.toNat / 4096) ++ (pctByte (0x80 + c.toNat / 64 % 64) ++
              (pctByte (0x80 + c.toNat % 64) ++ r)) := by
          simp [encodeChar, h, utf8Bytes, h1, h2, h3]
        rw [hb]
        have e1 := readPct_pctByte (0xE0 + c.toNat / 4096) (by omega)
          (pctByte (0x80 + c.toNat / 64 % 64) ++ (pctByte (0x80 + c.toNat % 64) ++ r))
        have e2 := readPct_pctByte (0x80 + c.toNat / 64 % 64) (by omega)
          (pctByte (0x80 + c.toNat % 64) ++ r)
        have e3 := readPct_pctByte (0x80 + c.toNat % 64) (by omega) r
        simp only [decodeSeq, e1, e2, e3]
        rw [if_neg (by omega), if_neg (by omega), if_neg (by omega), if_pos (by omega),
          if_pos (by omega)]
        have hval : (0xE0 + c.toNat / 4096 - 0xE0) * 4096 +
            (0x80 + c.toNat / 64 % 64 - 0x80) * 64 + (0x80 + c.toNat % 64 - 0x80)
            = c.toNat := by omega
        rw [hval, Char.ofNat_toNat]
      · have h4 : c.toNat < 0x110000 := by omega
        have hb : encodeChar c ++ r =
            pctByte (0xF0 + c.toNat / 262144) ++ (pctByte (0x80 + c.toNat / 4096 % 64) ++
              (pctByte (0x80 + c.toNat / 64 % 64) ++ (pctByte (0x80 + c.toNat % 64) ++ r))) := by
          simp [encodeChar, h, utf8Bytes, h1, h2, h3]
        rw [hb]
        have e1 := readPct_pctByte (0xF0 + c.toNat / 262144) (by omega)
          (pctByte (0x80 + c.toNat / 4096 % 64) ++
            (pctByte (0x80 + c.toNat / 64 % 64) ++ (pctByte (0x80 + c.toNat % 64) ++ r)))
        have e2 := readPct_pctByte (0x80 + c.toNat / 4096 % 64) (by omega)
          (pctByte (0x80 + c.toNat / 64 % 64) ++ (pctByte (0x80 + c.toNat % 64) ++ r))
        have e3 := readPct_pctByte (0x80 + c.toNat / 64 % 64) (by omega)
          (pctByte (0x80 + c.toNat % 64) ++ r)
        have e4 := readPct_pctByte (0x80 + c.toNat % 64) (by omega) r
        simp only [decodeSeq, e1, e2, e3, e4]
        rw [if_neg (by omega), if_neg (by omega), if_neg (by omega), if_neg (by omega),
          if_pos (by omega), if_pos (by omega)]
        have hval : (0xF0 + c.toNat / 262144 - 0xF0) * 262144 +
            (0x80 + c.toNat / 4096 % 64 - 0x80) * 4096 +
            (0x80 + c.toNat / 64 % 64 - 0x80) * 64 + (0x80 + c.toNat % 64 - 0x80)
            = c.toNat := by omega
        rw [hval, Char.ofNat_toNat]

theorem utf8Bytes_ne_nil (v : Nat) : utf8Bytes v ≠ [] := by
  rw [utf8Bytes]
  split <;> try split
  all_goals simp
  split <;> simp

theorem encodeChar_pct_head (c : Char) (h : isUriUnreserved c.toNat = false) :
    ∃ tl, encodeChar c = '%' :: tl := by
  rw [encodeChar, if_neg (by simp [h])]
  cases hb : utf8Bytes c.toNat with
  | nil => exact absurd hb (utf8Bytes_ne_nil c.toNat)
  | cons b bs =>
    exact ⟨hexDigit (b / 16) :: hexDigit (b % 16) ::
      bs.foldr (fun b acc => pctByte b ++ acc) [], by simp [pctByte]⟩

theorem decodeAux_encode (cs : List Char) :
    ∀ fuel, (encodeURIComponentL cs).length ≤ fuel →
      decodeAux fuel (encodeURIComponentL cs) = some cs := by
  induction cs with
  | nil =>
    intro fuel _
    cases fuel <;> rfl
  | cons c cs ih =>
    intro fuel hf
    rw [encodeURIComponentL] at hf ⊢
    by_cases hu : isUriUnreserved c.toNat = true
    · rw [encodeChar, if_pos hu] at hf ⊢
      rw [List.singleton_append] at hf ⊢
      obtain ⟨f, rfl⟩ : ∃ f, fuel = f + 1 := by
        cases fuel with
        | zero => simp at hf
        | succ f => exact ⟨f, rfl⟩
      have hc : ¬(c == '%') = true := by
        intro hc
        rw [beq_iff_eq] at hc
        subst hc
        exact absurd hu (by decide)
      rw [decodeAux]
      rw [if_neg hc, ih f (by simpa using hf)]
      rfl
    · simp only [Bool.not_eq_true] at hu
      obtain ⟨tl, htl⟩ := encodeChar_pct_head c hu
      rw [htl, List.cons_append] at hf ⊢
      obtain ⟨f, rfl⟩ : ∃ f, fuel = f + 1 := by
        cases fuel with
        | zero => simp at hf
        | succ f => exact ⟨f, rfl⟩
      rw [decodeAux, if_pos (by decide)]
      have hseq : decodeSeq ('%' :: (tl ++ encodeURIComponentL cs))
          = some (c, encodeURIComponentL cs) := by
        rw [show ('%' :: (tl ++ encodeURIComponentL cs))
            = encodeChar c ++ encodeURIComponentL cs from by rw [htl]; rfl]
        exact decodeSeq_encodeChar c hu (encodeURIComponentL cs)
      simp only [hseq]
      rw [ih f (by simp at hf; omega)]
      rfl

/-- `decodeURIComponent` is a left inverse of `encodeURIComponent` on
character lists. -/
theorem decode_encode_list (cs : List Char) :
    decodeURIComponentL (encodeURIComponentL cs) = some cs :=
  decodeAux_encode cs _ le_rfl

/-- `decodeURIComponent` is a left inverse of `encodeURIComponent`. -/
theorem decode_encode (s : String) :
    decodeURIComponent (encodeURIComponent s) = some s := by
  rw [decodeURIComponent, encodeURIComponent]
  show (decodeURIComponentL (encodeURIComponentL s.data)).map _ = some s
  rw [decode_encode_list]
  rfl

/-- C7: when the handler rewrites an attribute, the attribute holds
`proxyBase ++ encodeURIComponent href`, and stripping the `proxyBase`
prefix and percent-decoding the remainder recovers exactly the resolved
absolute URL. -/
theorem claim_C7_roundtrip (resolve : String → String → Option String)
    (proxyBase baseUrl : String) (e : Element) (a v href : String)
    (ha : designatedAttr e = some a) (hv : getAttribute e a = some v) (hne : v ≠ "")
    (hr : resolve v baseUrl = some href) :
    getAttribute (rewriteLinkElement resolve proxyBase baseUrl e) a =
      some (proxyBase ++ encodeURIComponent href) ∧
    decodeURIComponent (encodeURIComponent href) = some href := by
  constructor
  · rw [rewriteLinkElement]
    simp only [ha, hv, hr]
    rw [if_neg (by simpa using hne)]
    exact getAttribute_setAttribute e a v _ hv
  · exact decode_encode href

/-- C7 witness: a concrete anchor rewrite round-trips its resolved URL
(non-ASCII and reserved characters included). -/
theorem claim_C7_roundtrip_witness :
    getAttribute (rewriteLinkElement (fun v b => some (b ++ v)) "P/" "https://e.com"
        ⟨"a", [("href", "/a b?x=1")]⟩) "href" =
      some ("P/" ++ encodeURIComponent "https://e.com/a b?x=1") ∧
    decodeURIComponent (encodeURIComponent "https://e.com/a b?x=1") =
      some "https://e.com/a b?x=1" :=
  claim_C7_roundtrip (fun v b => some (b ++ v)) "P/" "https://e.com"
    ⟨"a", [("href", "/a b?x=1")]⟩ "href" "/a b?x=1" "https://e.com/a b?x=1"
    rfl rfl (by decide) rfl

/-! ### Claim C9 — inline style `url()` rewriting -/

theorem splitCloseParen_append (xs post : List Char) (h : ∀ c ∈ xs, c ≠ ')') :
    splitCloseParen (xs ++ ')' :: post) = some (xs, post) := by
  induction xs with
  | nil => simp [splitCloseParen]
  | cons c t ih =>
    have hc : ¬(c == ')') = true := by
      simp only [beq_iff_eq]
      exact h c (List.mem_cons_self _ _)
    rw [List.cons_append, splitCloseParen, if_neg hc,
      ih (fun d hd => h d (List.mem_cons_of_mem _ hd))]

theorem splitCloseParen_length (cs : List Char) :
    ∀ a b, splitCloseParen cs = some (a, b) → a.length + 1 + b.length = cs.length := by
  induction cs with
  | nil => intro a b h; simp [splitCloseParen] at h
  | cons c t ih =>
    intro a b h
    rw [splitCloseParen] at h
    by_cases hc : (c == ')') = true
    · rw [if_pos hc] at h
      obtain ⟨rfl, rfl⟩ := Prod.mk.inj (Option.some.inj h)
      simp
      omega
    · rw [if_neg hc] at h
      cases hsp : splitCloseParen t with
      | none => rw [hsp] at h; exact absurd h (by simp)
      | some pr =>
        obtain ⟨a0, b0⟩ := pr
        rw [hsp] at h
        simp only [Option.some.injEq, Prod.mk.injEq] at h
        obtain ⟨h1, h2⟩ := h
        subst h1
        subst h2
        have := ih a0 b0 hsp
        simp only [List.length_cons]
        omega

theorem startsWithUrl_urlOpen (x : List Char) : startsWithUrl (urlOpen ++ x) = true := rfl

/-- No occurrence of `url(` can straddle the boundary between a prefix
that does not start with `url(` and a suffix that does. -/
theorem startsWithUrl_straddle (c : Char) (pre t : List Char)
    (h : startsWithUrl (c :: pre) = false) :
    startsWithUrl (c :: (pre ++ (urlOpen ++ t))) = false := by
  match pre with
  | [] => simp [startsWithUrl, urlOpen]
  | [a] => simp [startsWithUrl, urlOpen]
  | [a, b] => simp [startsWithUrl, urlOpen]
  | a :: b :: d :: tt => simpa [startsWithUrl] using h

theorem findToken_skip_pre (pre mid : List Char) (hpre : hasUrlParen pre = false) :
    findToken (pre ++ (urlOpen ++ mid)) =
      match splitCloseParen mid with
      | some (inner, post) => some (pre, inner, post)
      | none => none := by
  induction pre with
  | nil =>
    rw [List.nil_append]
    show findToken ('u' :: 'r' :: 'l' :: '(' :: mid) = _
    rw [findToken, if_pos (by rfl)]
    show (match splitCloseParen mid with
      | some (inner, post) => some ([], inner, post)
      | none => none) = _
    cases splitCloseParen mid with
    | none => rfl
    | some pr => obtain ⟨a, b⟩ := pr; rfl
  | cons c t ih =>
    rw [hasUrlParen] at hpre
    have hor : startsWithUrl (c :: t) = false ∧ hasUrlParen t = false := by
      simpa using hpre
    rw [List.cons_append, findToken,
      if_neg (by simp [startsWithUrl_straddle c t mid hor.1]), ih hor.2]
    cases splitCloseParen mid with
    | none => rfl
    | some pr => obtain ⟨a, b⟩ := pr; rfl

theorem findToken_length (cs : List Char) :
    ∀ pre inner post, findToken cs = some (pre, inner, post) → post.length < cs.length := by
  induction cs with
  | nil => intro pre inner post h; simp [findToken] at h
  | cons c t ih =>
    intro pre inner post h
    rw [findToken] at h
    by_cases hs : startsWithUrl (c :: t) = true
    · rw [if_pos hs] at h
      cases hsp : splitCloseParen ((c :: t).drop 4) with
      | none => rw [hsp] at h; exact absurd h (by simp)
      | some pr =>
        obtain ⟨a, b⟩ := pr
        rw [hsp] at h
        simp only [Option.some.injEq, Prod.mk.injEq] at h
        obtain ⟨-, -, h3⟩ := h
        subst h3
        have hl := splitCloseParen_length _ _ _ hsp
        simp only [List.length_drop, List.length_cons] at hl
        simp only [List.length_cons]
        omega
    · rw [if_neg hs] at h
      cases hft : findToken t with
      | none => rw [hft] at h; exact absurd h (by simp)
      | some pr =>
        obtain ⟨a, bc⟩ := pr
        obtain ⟨b, c2⟩ := bc
        rw [hft] at h
        simp only [Option.some.injEq, Prod.mk.injEq] at h
        obtain ⟨-, -, h3⟩ := h
        subst h3
        have := ih a b c2 hft
        simp only [List.length_cons]
        omega

theorem rewriteStyleAux_congr (resolve : String → String → Option String)
    (pb base : String) :
    ∀ f g cs, cs.length ≤ f → cs.length ≤ g →
      rewriteStyleAux resolve pb base f cs = rewriteStyleAux resolve pb base g cs := by
  intro f
  induction f with
  | zero =>
    intro g cs hf hg
    have hnil : cs = [] := List.length_eq_zero.mp (Nat.le_zero.mp hf)
    subst hnil
    cases g <;> rfl
  | succ f ih =>
    intro g cs hf hg
    cases cs with
    | nil => cases g <;> rfl
    | cons c t =>
      obtain ⟨g2, rfl⟩ : ∃ g2, g = g2 + 1 := by
        cases g with
        | zero => simp at hg
        | succ g2 => exact ⟨g2, rfl⟩
      simp only [rewriteStyleAux]
      cases hft : findToken (c :: t) with
      | none => simp only [hft]
      | some pr =>
        obtain ⟨pre, bc⟩ := pr
        obtain ⟨inner, post⟩ := bc
        simp only [hft]
        have hlen := findToken_length _ _ _ _ hft
        simp only [List.length_cons] at hlen hf hg
        rw [ih g2 post (by omega) (by omega)]

theorem rewriteStyleAux_fuel (resolve : String → String → Option String)
    (pb base : String) (f : Nat) (cs : List Char) (h : cs.length ≤ f) :
    rewriteStyleAux resolve pb base f cs = rewriteStyleUrlsL resolve pb base cs :=
  rewriteStyleAux_congr resolve pb base f cs.length cs h le_rfl

theorem takeWhile_all_append {p : Char → Bool} (xs : List Char) (y : Char)
    (rest : List Char) (hall : ∀ c ∈ xs, p c = true) (hy : p y = false) :
    (xs ++ y :: rest).takeWhile p = xs := by
  induction xs with
  | nil => simp [List.takeWhile_cons, hy]
  | cons c t ih =>
    have hc := hall c (List.mem_cons_self _ _)
    simp [List.takeWhile_cons, hc, ih (fun d hd => hall d (List.mem_cons_of_mem _ hd))]

/-- The capture run of the inner regex body on a well-formed token
interior: the whole unquoted URL. -/
theorem tryBody_token (inner qtail : List Char) (hne : inner ≠ [])
    (hinner : ∀ c ∈ inner, isQuoteChar c = false ∧ c ≠ ')')
    (hq : qtail = [')'] ∨ ∃ qc, isQuoteChar qc = true ∧ qtail = [qc, ')']) :
    tryBody (inner ++ qtail) = some inner := by
  obtain ⟨y, rest, hyq, hyrest⟩ :
      ∃ y rest, qtail = y :: rest ∧
        ((fun c => !(isQuoteChar c) && c != ')') y = false) := by
    rcases hq with hq | ⟨qc, hqc, hq⟩
    · exact ⟨')', [], hq, by simp⟩
    · exact ⟨qc, [')'], hq, by simp [hqc]⟩
  have hall : ∀ c ∈ inner, (fun c => !(isQuoteChar c) && c != ')') c = true := by
    intro c hc
    obtain ⟨h1, h2⟩ := hinner c hc
    simp [h1, h2]
  rw [tryBody]
  simp only [hyq, hyrest]
  rw [takeWhile_all_append inner y rest hall hyrest]
  rw [if_neg (by simpa using hne)]
  rw [show (inner ++ y :: rest).drop inner.length = y :: rest from
    List.drop_left inner (y :: rest)]
  rcases hq with hq | ⟨qc, hqc, hq⟩
  · rw [hq] at hyq
    obtain ⟨h1, h2⟩ := List.cons.inj hyq
    subst h1
    subst h2
    rfl
  · rw [hq] at hyq
    obtain ⟨h1, h2⟩ := List.cons.inj hyq
    subst h1
    subst h2
    simp [hqc]

/-- After the literal `url(`, the optional greedy quote plus body match a
well-formed quoted-or-bare interior and capture the inner URL. -/
theorem tryAt_token (q inner : List Char) (hne : inner ≠ [])
    (hinner : ∀ c ∈ inner, isQuoteChar c = false ∧ c ≠ ')')
    (hq : q = [] ∨ q = [quoteD] ∨ q = [quoteS]) :
    tryAt (q ++ (inner ++ (q ++ [')']))) = some inner := by
  rcases hq with hq | hq | hq
  · subst hq
    simp only [List.nil_append, List.append_nil]
    obtain ⟨i0, irest, hi⟩ := List.exists_cons_of_ne_nil hne
    rw [hi, List.cons_append, tryAt,
      if_neg (by simp [(hinner i0 (by rw [hi]; exact List.mem_cons_self _ _)).1]),
      ← List.cons_append, ← hi]
    exact tryBody_token inner [')'] hne hinner (Or.inl rfl)
  · subst hq
    rw [List.singleton_append, tryAt, if_pos (by decide)]
    rw [show inner ++ ([quoteD] ++ [')']) = inner ++ [quoteD, ')'] from by simp]
    rw [tryBody_token inner [quoteD, ')'] hne hinner (Or.inr ⟨quoteD, by decide, rfl⟩)]
  · subst hq
    rw [List.singleton_append, tryAt, if_pos (by decide)]
    rw [show inner ++ ([quoteS] ++ [')']) = inner ++ [quoteS, ')'] from by simp]
    rw [tryBody_token inner [quoteS, ')'] hne hinner (Or.inr ⟨quoteS, by decide, rfl⟩)]

/-- The inner regex matches a well-formed token at position 0 and captures
the inner URL. -/
theorem innerMatch_token (q inner : List Char) (hne : inner ≠ [])
    (hinner : ∀ c ∈ inner, isQuoteChar c = false ∧ c ≠ ')')
    (hq : q = [] ∨ q = [quoteD] ∨ q = [quoteS]) :
    innerMatch (urlOpen ++ (q ++ (inner ++ (q ++ [')'])))) = some inner := by
  have hat : innerMatchAt (urlOpen ++ (q ++ (inner ++ (q ++ [')'])))) = some inner := by
    rw [innerMatchAt, if_pos (startsWithUrl_urlOpen _)]
    rw [show (urlOpen ++ (q ++ (inner ++ (q ++ [')'])))).drop 4
        = q ++ (inner ++ (q ++ [')'])) from List.drop_left urlOpen _]
    exact tryAt_token q inner hne hinner hq
  show innerMatch ('u' :: 'r' :: 'l' :: '(' :: (q ++ (inner ++ (q ++ [')'])))) = some inner
  rw [innerMatch]
  simp only [show ('u' :: 'r' :: 'l' :: '(' :: (q ++ (inner ++ (q ++ [')']))))
      = urlOpen ++ (q ++ (inner ++ (q ++ [')']))) from rfl, hat]

/-- One global-replace step on a well-formed quoted-or-bare token. -/
theorem rewriteStyle_step (resolve : String → String → Option String) (pb base : String)
    (pre q inner post : List Char)
    (hpre : hasUrlParen pre = false)
    (hq : q = [] ∨ q = [quoteD] ∨ q = [quoteS])
    (hne : inner ≠ [])
    (hinner : ∀ c ∈ inner, isQuoteChar c = false ∧ c ≠ ')') :
    rewriteStyleUrlsL resolve pb base
        (pre ++ (urlOpen ++ ((q ++ (inner ++ q)) ++ (')' :: post)))) =
      pre ++ ((match resolve ⟨inner⟩ base with
        | some href => urlOpen ++ pb.data ++ (encodeURIComponent href).data ++ [')']
        | none => urlOpen ++ (q ++ (inner ++ q)) ++ [')']) ++
        rewriteStyleUrlsL resolve pb base post) := by
  have hq' : ∀ c ∈ q, c ≠ ')' := by
    intro c hc
    rcases hq with rfl | rfl | rfl
    · simp at hc
    · simp at hc; subst hc; decide
    · simp at hc; subst hc; decide
  have hnop : ∀ c ∈ q ++ (inner ++ q), c ≠ ')' := by
    intro c hc
    rcases List.mem_append.mp hc with h | h
    · exact hq' c h
    · rcases List.mem_append.mp h with h | h
      · exact (hinner c h).2
      · exact hq' c h
  have hsp : splitCloseParen ((q ++ (inner ++ q)) ++ (')' :: post)) =
      some (q ++ (inner ++ q), post) := splitCloseParen_append _ _ hnop
  have hft : findToken (pre ++ (urlOpen ++ ((q ++ (inner ++ q)) ++ (')' :: post)))) =
      some (pre, q ++ (inner ++ q), post) := by
    rw [findToken_skip_pre _ _ hpre, hsp]
  have hs_ne : pre ++ (urlOpen ++ ((q ++ (inner ++ q)) ++ (')' :: post))) ≠ [] := by
    simp [urlOpen]
  obtain ⟨c, t, hct⟩ := List.exists_cons_of_ne_nil hs_ne
  rw [rewriteStyleUrlsL, hct]
  show rewriteStyleAux resolve pb base (t.length + 1) (c :: t) = _
  simp only [rewriteStyleAux]
  rw [← hct]
  simp only [hft]
  have hfuel : rewriteStyleAux resolve pb base t.length post =
      rewriteStyleUrlsL resolve pb base post := by
    apply rewriteStyleAux_fuel
    have hlen : (c :: t).length =
        (pre ++ (urlOpen ++ ((q ++ (inner ++ q)) ++ (')' :: post)))).length := by
      rw [hct]
    simp [urlOpen] at hlen
    omega
  rw [hfuel]
  cases hres : resolve ⟨inner⟩ base with
  | none => simp [replaceTok, innerMatch_token q inner hne hinner hq, hres]
  | some href => simp [replaceTok, innerMatch_token q inner hne hinner hq, hres]

/-- One global-replace step on a token with empty interior (`url()`),
which the inner regex does not match: the token is kept verbatim. -/
theorem rewriteStyle_step_empty (resolve : String → String → Option String)
    (pb base : String) (pre post : List Char) (hpre : hasUrlParen pre = false) :
    rewriteStyleUrlsL resolve pb base (pre ++ (urlOpen ++ (')' :: post))) =
      pre ++ ((urlOpen ++ [')']) ++ rewriteStyleUrlsL resolve pb base post) := by
  have hsp : splitCloseParen (')' :: post) = some ([], post) := by
    simp [splitCloseParen]
  have hft : findToken (pre ++ (urlOpen ++ (')' :: post))) = some (pre, [], post) := by
    rw [findToken_skip_pre _ _ hpre, hsp]
  have hs_ne : pre ++ (urlOpen ++ (')' :: post)) ≠ [] := by simp [urlOpen]
  obtain ⟨c, t, hct⟩ := List.exists_cons_of_ne_nil hs_ne
  rw [rewriteStyleUrlsL, hct]
  show rewriteStyleAux resolve pb base (t.length + 1) (c :: t) = _
  simp only [rewriteStyleAux]
  rw [← hct]
  simp only [hft]
  have hfuel : rewriteStyleAux resolve pb base t.length post =
      rewriteStyleUrlsL resolve pb base post := by
    apply rewriteStyleAux_fuel
    have hlen : (c :: t).length = (pre ++ (urlOpen ++ (')' :: post))).length := by
      rw [hct]
    simp [urlOpen] at hlen
    omega
  rw [hfuel]
  have hrt : replaceTok resolve pb base (urlOpen ++ [] ++ [')']) = urlOpen ++ [] ++ [')'] := by
    rfl
  simp only [hrt]
  simp

/-- C9: for an element bearing a style attribute, a well-formed
`url(...)` token (optionally single- or double-quoted) whose inner URL
resolves against baseURL is replaced by
`url(proxyBase + percent-encode(absoluteURL))`; an unresolvable inner URL
leaves the token verbatim, as does a token the inner pattern does not
match (empty interior); the text before the token is untouched and the
text after it is processed recursively. -/
theorem claim_C9_style_rewrite (resolve : String → String → Option String)
    (proxyBase baseUrl : String) (e : Element) (s : String)
    (hs : getAttribute e "style" = some s) :
    (∀ pre q inner post,
      s.data = pre ++ (urlOpen ++ ((q ++ (inner ++ q)) ++ (')' :: post))) →
      hasUrlParen pre = false → (q = [] ∨ q = [quoteD] ∨ q = [quoteS]) →
      inner ≠ [] → (∀ c ∈ inner, isQuoteChar c = false ∧ c ≠ ')') →
      getAttribute (rewriteStyleElement resolve proxyBase baseUrl e) "style" =
        some ⟨pre ++ ((match resolve ⟨inner⟩ baseUrl with
          | some href => urlOpen ++ proxyBase.data ++ (encodeURIComponent href).data ++ [')']
          | none => urlOpen ++ (q ++ (inner ++ q)) ++ [')']) ++
          rewriteStyleUrlsL resolve proxyBase baseUrl post)⟩) ∧
    (∀ pre post, s.data = pre ++ (urlOpen ++ (')' :: post)) → hasUrlParen pre = false →
      getAttribute (rewriteStyleElement resolve proxyBase baseUrl e) "style" =
        some ⟨pre ++ ((urlOpen ++ [')']) ++
          rewriteStyleUrlsL resolve proxyBase baseUrl post)⟩) := by
  have hval : getAttribute (rewriteStyleElement resolve proxyBase baseUrl e) "style" =
      some (rewriteStyleUrls resolve s proxyBase baseUrl) := by
    rw [rewriteStyleElement]
    simp only [hs, Option.getD_some]
    exact getAttribute_setAttribute e "style" s _ hs
  constructor
  · intro pre q inner post hsplit hpre hqc hne hinner
    rw [hval, rewriteStyleUrls]
    congr 1
    apply String.ext
    show rewriteStyleUrlsL resolve proxyBase baseUrl s.data = _
    rw [hsplit, rewriteStyle_step resolve proxyBase baseUrl pre q inner post
      hpre hqc hne hinner]
  · intro pre post hsplit hpre
    rw [hval, rewriteStyleUrls]
    congr 1
    apply String.ext
    show rewriteStyleUrlsL resolve proxyBase baseUrl s.data = _
    rw [hsplit, rewriteStyle_step_empty resolve proxyBase baseUrl pre post hpre]

/-- C9 witness: a concrete style attribute with one bare `url()` token. -/
theorem claim_C9_style_rewrite_witness :
    getAttribute (rewriteStyleElement (fun v b => some (b ++ v)) "P/" "B"
        ⟨"div", [("style", "x url(/i.png) y")]⟩) "style" =
      some ⟨"x ".data ++ ((urlOpen ++ "P/".data ++
        (encodeURIComponent ("B" ++ "/i.png")).data ++ [')']) ++
        rewriteStyleUrlsL (fun v b => some (b ++ v)) "P/" "B" " y".data)⟩ :=
  (claim_C9_style_rewrite (fun v b => some (b ++ v)) "P/" "B"
    ⟨"div", [("style", "x url(/i.png) y")]⟩ "x url(/i.png) y" rfl).1
    "x ".data [] "/i.png".data " y".data (by decide) (by decide) (Or.inl rfl)
    (by decide) (by decide)

end ProxyBrowser
